import Mathlib

/-
Verification of the scrape → normalize → dedupe → load pipeline of the
jhu_software_concepts repository against its natural-language specification.

The embedding below follows the Python source:
  * `src/module_2/clean.py`        (Cleaner, LLMClient)
  * `src/module_4/src/app/routes.py` and `src/module_5/src/app/routes.py`
    (the /pull-data busy-rejection handlers)
  * the loader `data/loader.py` is not part of the sources; its behaviour is
    modelled from the specification (see `load_applicants` below).

Python dict-shaped rows are embedded as fixed-field records whose field values
range over the scalar types that actually occur in the pipeline
(None / str / int / float); Python floats are idealized as rationals.
-/

namespace GradPipeline

/-! ## Python-style character and string helpers

Python `str` values are embedded as Lean `String`; the helpers below mirror
the exact stdlib calls used by `clean.py` (`str.strip`, `str.lower`,
`str.replace`, `re.sub`, `html.unescape`).  All of them work on `List Char`
internally so that proofs can proceed by structural induction. -/

/-- Whitespace characters recognised by Python's `str.strip()` and `\s`
(ASCII subset: space, tab, newline, carriage return, vertical tab, form feed). -/
def pyWs (c : Char) : Bool :=
  c = ' ' || c = '\t' || c = '\n' || c = '\r' || c = '\x0b' || c = '\x0c'

/-- Strip `pyWs` characters from both ends (Python `str.strip()`). -/
def stripList (l : List Char) : List Char :=
  ((l.dropWhile pyWs).reverse.dropWhile pyWs).reverse

/-- Python `s.strip()` on a string. -/
def pyStrip (s : String) : String :=
  String.mk (stripList s.toList)

/-- Strip the characters of `cs` from both ends (Python `str.strip(chars)`). -/
def stripCharsList (cs : List Char) (l : List Char) : List Char :=
  ((l.dropWhile (cs.contains ·)).reverse.dropWhile (cs.contains ·)).reverse

/-- Python `str.lower()` (ASCII case folding, which covers the pipeline's data). -/
def pyLower (s : String) : String :=
  String.mk (s.toList.map Char.toLower)

/-- Remove every space character (Python `s.replace(" ", "")`). -/
def removeSpaces (s : String) : String :=
  String.mk (s.toList.filter (· ≠ ' '))

/-- Remove every occurrence of the character `c` (Python `s.replace(c, "")`). -/
def removeChar (c : Char) (s : String) : String :=
  String.mk (s.toList.filter (· ≠ c))

/-- Replace every occurrence of character `a` by `b` (Python `s.replace(a, b)`
for one-character arguments). -/
def replaceChar (a b : Char) (s : String) : String :=
  String.mk (s.toList.map (fun c => if c = a then b else c))

/-- Does `hay` start with `needle`? -/
def startsWithSeq : List Char → List Char → Bool
  | [], _ => true
  | _ :: _, [] => false
  | n :: ns, h :: hs => n = h && startsWithSeq ns hs

/-- Does `hay` contain `needle` as a contiguous subsequence
(Python `needle in hay`)? -/
def containsSeq (needle : List Char) : List Char → Bool
  | [] => startsWithSeq needle []
  | c :: rest => startsWithSeq needle (c :: rest) || containsSeq needle rest

/-- Python `needle in hay` on strings. -/
def pyContains (hay needle : String) : Bool :=
  containsSeq needle.toList hay.toList

/-- Python `hay.startswith(needle)` on strings. -/
def pyStartsWith (hay needle : String) : Bool :=
  startsWithSeq needle.toList hay.toList

/-! ## The tag-stripping pass of `_norm_str`

`re.sub(r"<[^>]+>", " ", s)` replaces every non-overlapping match of
`<[^>]+>` (a `<`, one or more non-`>` characters, then `>`) by one space,
scanning left to right. -/

/-- Scan for the first `>`; return the suffix after it. -/
def afterGt : List Char → Option (List Char)
  | [] => none
  | c :: rest => if c = '>' then some rest else afterGt rest

/-- Given the characters following a `<`, return the suffix after the closing
`>` when the regex `[^>]+>` matches a prefix. -/
def tagEnd : List Char → Option (List Char)
  | [] => none
  | c :: rest => if c = '>' then none else afterGt rest

/-- Fuel-driven scan replacing every regex match `<[^>]+>` by a single
space; every step strictly shortens the input, so fuel `length + 1` is
always sufficient and the fuel-exhausted branch is unreachable. -/
def stripTagsGo : Nat → List Char → List Char
  | 0, l => l
  | _ + 1, [] => []
  | fuel + 1, c :: rest =>
    if c = '<' then
      match tagEnd rest with
      | some r => ' ' :: stripTagsGo fuel r
      | none => '<' :: stripTagsGo fuel rest
    else c :: stripTagsGo fuel rest

/-- Replace every regex match `<[^>]+>` by a single space
(the first substitution in `_norm_str`). -/
def stripTags (l : List Char) : List Char :=
  stripTagsGo (l.length + 1) l

/-! ## The entity-unescaping pass of `_norm_str`

`html.unescape` is a Python stdlib call; the embedding models the
semicolon-terminated named references that occur in scraped admissions data
(`amp`, `lt`, `gt`, `quot`, `apos`, `nbsp`, `ndash`, `mdash`, `rsquo`,
`lsquo`) plus decimal and hexadecimal character references.  Exotic entities
outside this subset stay verbatim; every downstream consumer treats
unrecognised text uniformly, so the subset does not change any verified
property. -/

/-- Named HTML entities modelled from `html.unescape`'s table. -/
def entityTable : List (List Char × Char) :=
  [("amp".toList, '&'), ("lt".toList, '<'), ("gt".toList, '>'),
   ("quot".toList, '"'), ("apos".toList, '\''), ("nbsp".toList, ' '),
   ("ndash".toList, '–'), ("mdash".toList, '—'),
   ("rsquo".toList, '’'), ("lsquo".toList, '‘')]

/-- Digit value of a decimal digit character. -/
def digitVal (c : Char) : Nat := c.toNat - '0'.toNat

/-- Decimal digit test. -/
def isDigitCh (c : Char) : Bool := '0' ≤ c && c ≤ '9'

/-- Hexadecimal digit test. -/
def isHexCh (c : Char) : Bool :=
  isDigitCh c || ('a' ≤ c && c ≤ 'f') || ('A' ≤ c && c ≤ 'F')

/-- Hexadecimal digit value. -/
def hexVal (c : Char) : Nat :=
  if isDigitCh c then digitVal c
  else if 'a' ≤ c && c ≤ 'f' then c.toNat - 'a'.toNat + 10
  else c.toNat - 'A'.toNat + 10

/-- Value of a decimal digit list. -/
def digitsVal (l : List Char) : Nat :=
  l.foldl (fun a c => 10 * a + digitVal c) 0

/-- Value of a hexadecimal digit list. -/
def hexDigitsVal (l : List Char) : Nat :=
  l.foldl (fun a c => 16 * a + hexVal c) 0

/-- Are all characters decimal digits (and the list non-empty)? -/
def allDigits (l : List Char) : Bool :=
  !l.isEmpty && l.all isDigitCh

/-- Split off the longest prefix satisfying `p`. -/
def spanList (p : Char → Bool) (l : List Char) : List Char × List Char :=
  (l.takeWhile p, l.dropWhile p)

/-- Decode a named reference `name;` against `entityTable`. -/
def namedRef (l : List Char) : Option (Char × List Char) :=
  match spanList (fun c => c.isAlpha) l with
  | (name, ';' :: tail) =>
    match entityTable.lookup name with
    | some c => some (c, tail)
    | none => none
  | _ => none

/-- Decode a decimal character reference `DD;` (the part after `&#`). -/
def decRef (l : List Char) : Option (Char × List Char) :=
  match spanList isDigitCh l with
  | (ds, ';' :: tail) =>
    if ds.isEmpty then none
    else if (digitsVal ds).isValidChar then some (Char.ofNat (digitsVal ds), tail)
    else none
  | _ => none

/-- Decode a hexadecimal character reference `HH;` (the part after `&#x`). -/
def hexRef (l : List Char) : Option (Char × List Char) :=
  match spanList isHexCh l with
  | (ds, ';' :: tail) =>
    if ds.isEmpty then none
    else if (hexDigitsVal ds).isValidChar then some (Char.ofNat (hexDigitsVal ds), tail)
    else none
  | _ => none

/-- Parse one entity after a `&`: returns the decoded character and the
remaining input.  `&#DD;`, `&#xHH;` / `&#XHH;` and the named references of
`entityTable` are recognised; anything else is left alone. -/
def parseEntity (l : List Char) : Option (Char × List Char) :=
  match l with
  | '#' :: 'x' :: rest => hexRef rest
  | '#' :: 'X' :: rest => hexRef rest
  | '#' :: rest => decRef rest
  | _ => namedRef l

/-- Fuel-driven left-to-right pass decoding HTML entities; every step
consumes at least one character, so fuel `length + 1` always suffices. -/
def htmlUnescapeGo : Nat → List Char → List Char
  | 0, l => l
  | _ + 1, [] => []
  | fuel + 1, c :: rest =>
    if c = '&' then
      match parseEntity rest with
      | some (d, r) => d :: htmlUnescapeGo fuel r
      | none => '&' :: htmlUnescapeGo fuel rest
    else c :: htmlUnescapeGo fuel rest

/-- One left-to-right pass decoding HTML entities (models `html.unescape`). -/
def htmlUnescape (l : List Char) : List Char :=
  htmlUnescapeGo (l.length + 1) l

/-! ## Whitespace collapsing and `_norm_str` itself -/

/-- Replace every maximal run of whitespace by a single space
(`re.sub(r"\s+", " ", s)`); the flag records whether the previous
character was whitespace. -/
def collapseWsGo : Bool → List Char → List Char
  | _, [] => []
  | prevWs, c :: rest =>
    if pyWs c then
      if prevWs then collapseWsGo true rest
      else ' ' :: collapseWsGo true rest
    else c :: collapseWsGo false rest

/-- Whitespace collapsing pass of `_norm_str`. -/
def collapseWs (l : List Char) : List Char := collapseWsGo false l

/-- Embeds `_norm_str` from `clean.py` for string input:
strip markup tags, unescape HTML entities, collapse whitespace, strip,
and return `none` for the empty result (`s or None`). -/
def normStr (s : String) : Option String :=
  let l := stripList (collapseWs (htmlUnescape (stripTags s.toList)))
  if l.isEmpty then none else some (String.mk l)

/-! ## Decimal rendering and parsing (Python `str`/`int()`/`float()`) -/

/-- Character of a decimal digit. -/
def digitChar (n : Nat) : Char := Char.ofNat ('0'.toNat + n)

/-- Fuel-driven digit accumulation; `n / 10 < n` for `n ≥ 10`, so fuel
`n + 1` always suffices. -/
def natToDigitsGo : Nat → Nat → List Char → List Char
  | 0, _, acc => acc
  | fuel + 1, n, acc =>
    if n < 10 then digitChar n :: acc
    else natToDigitsGo fuel (n / 10) (digitChar (n % 10) :: acc)

/-- Decimal digit list of a natural number (no leading zeros, `0 ↦ "0"`). -/
def natToDigits (n : Nat) : List Char :=
  natToDigitsGo (n + 1) n []

/-- Left-pad a digit list with zeros to width `k`. -/
def padZ (k : Nat) (l : List Char) : List Char :=
  List.replicate (k - l.length) '0' ++ l

/-- Python `str(n)` for an `int`. -/
def intStr (n : Int) : String :=
  (if n < 0 then "-" else "") ++ String.mk (natToDigits n.natAbs)

/-- Python floats: a finite value (idealized as `ℚ`) or one of the special
IEEE values `nan`, `inf`, `-inf`, all of which `float()` can produce and
which flow through the pipeline's comparisons with their own semantics. -/
inductive PyFloat where
  | finite (q : ℚ)
  | nan
  | inf
  | ninf
deriving DecidableEq, Repr

/-- Python `<` on floats: every comparison involving NaN is false;
`-inf` is below and `inf` above every other value. -/
def PyFloat.lt : PyFloat → PyFloat → Bool
  | .finite a, .finite b => a < b
  | .nan, _ => false
  | _, .nan => false
  | .ninf, .ninf => false
  | .ninf, _ => true
  | _, .ninf => false
  | .inf, _ => false
  | .finite _, .inf => true

/-- Python `<=` on floats: false whenever NaN is involved, otherwise the
negation of the reversed `<`. -/
def PyFloat.le (a b : PyFloat) : Bool :=
  match a, b with
  | .nan, _ => false
  | _, .nan => false
  | _, _ => !PyFloat.lt b a

/-- Python `str(x)` for a float: `nan` / `inf` / `-inf` for the special
values; for finite values the shortest decimal expansion when the
denominator is a power of ten times a unit (actual Python floats are
dyadic, so their `repr` round-trips), with a digits-only fallback
otherwise — only the digits matter downstream, since non-numeric consumers
treat any digit string uniformly. -/
def floatStr (x : PyFloat) : String :=
  match x with
  | .nan => "nan"
  | .inf => "inf"
  | .ninf => "-inf"
  | .finite q =>
    let sign := if q < 0 then "-" else ""
    let n := q.num.natAbs
    let d := q.den
    match (List.range 65).find? (fun k => d ∣ 10 ^ k) with
    | some k =>
      let frac := n % d * 10 ^ k / d
      sign ++ String.mk (natToDigits (n / d)) ++ "." ++ String.mk (padZ k (natToDigits frac))
    | none => sign ++ String.mk (natToDigits (n / d)) ++ "." ++ String.mk (natToDigits (n % d))

/-- Optional sign: returns (negative?, rest). -/
def takeSign : List Char → Bool × List Char
  | '-' :: rest => (true, rest)
  | '+' :: rest => (false, rest)
  | l => (false, l)

/-- Python `int(s)` on an already-stripped string: optional sign then decimal
digits (numeric-literal underscores are not modelled). -/
def pyIntOfString (s : String) : Option Int :=
  let l := stripList s.toList
  let (neg, l1) := takeSign l
  if allDigits l1 then
    some (if neg then -(digitsVal l1 : Int) else (digitsVal l1 : Int))
  else none

/-- Python `float(s)`: optional sign, then either a special form
(`inf` / `infinity` / `nan`, case-insensitively — `float("nan")` really
returns NaN, which the gpa reject-form check then lets through) or integer
and/or fractional digit groups with an optional decimal exponent. -/
def pyFloatOfString (s : String) : Option PyFloat :=
  let l := stripList s.toList
  let (neg, l1) := takeSign l
  let low := pyLower (String.mk l1)
  if low = "inf" || low = "infinity" then some (if neg then .ninf else .inf)
  else if low = "nan" then some .nan
  else
  let (ip, l2) := spanList isDigitCh l1
  let (fp, l3) :=
    match l2 with
    | '.' :: rest => spanList isDigitCh rest
    | _ => ([], l2)
  let hadDot := match l2 with | '.' :: _ => true | _ => false
  if ip.isEmpty && fp.isEmpty then none
  else
    let mant : ℚ := (digitsVal ip : ℚ) + (digitsVal fp : ℚ) / (10 : ℚ) ^ fp.length
    let rest := if hadDot then l3 else l2
    match rest with
    | [] => some (.finite (if neg then -mant else mant))
    | 'e' :: er | 'E' :: er =>
      let (eneg, e1) := takeSign er
      if allDigits e1 then
        let ex : ℚ := if eneg then ((10 : ℚ) ^ digitsVal e1)⁻¹ else (10 : ℚ) ^ digitsVal e1
        some (.finite ((if neg then -mant else mant) * ex))
      else none
    | _ => none

/-! ## Python scalar values -/

/-- Scalar Python values that occur as raw-row fields in the pipeline:
`None`, `str`, `int` and `float` (idealized as `ℚ`). -/
inductive Val where
  | vnone
  | vstr (s : String)
  | vint (n : Int)
  | vrat (x : PyFloat)
deriving DecidableEq, Repr

/-- Embeds `_norm_str(x)` for arbitrary values: `None ↦ None`, otherwise
`str(x)` followed by the string-normalization pipeline. -/
def pyNormStr (v : Val) : Option String :=
  match v with
  | .vnone => none
  | .vstr s => normStr s
  | .vint n => normStr (intStr n)
  | .vrat x => normStr (floatStr x)

/-- Embeds `_to_int(x) = int(str(x).strip())` with exception-to-`None`:
`str` of a float always contains `.`, an exponent, or an `inf`/`nan` form,
so `int()` raises on it; `int(str(None))` raises as well. -/
def pyToInt (v : Val) : Option Int :=
  match v with
  | .vnone => none
  | .vstr s => pyIntOfString (pyStrip s)
  | .vint n => some n
  | .vrat _ => none

/-- Embeds `_to_float(x) = float(str(x).strip())` with exception-to-`None`;
`float(str(x))` round-trips for floats (NaN round-trips to NaN) and ints. -/
def pyToFloat (v : Val) : Option PyFloat :=
  match v with
  | .vnone => none
  | .vstr s => pyFloatOfString (pyStrip s)
  | .vint n => some (.finite (n : ℚ))
  | .vrat x => some x

/-! ## Dates (`datetime.strptime` / `strftime` as used by `clean.py`)

Only the formats the source tries are embedded: `%Y-%m-%d`, `%B %d, %Y`,
`%b %d, %Y`, and the `%d %b %Y` / `%d %B %Y` short-badge recombination.
`strptime` month/day fields accept one or two digits; the year field is
exactly four digits; the constructed date must be valid (leap years
included). -/

/-- Split on a separator character (Python `str.split(sep)` semantics). -/
def splitOnChar (c : Char) : List Char → List (List Char)
  | [] => [[]]
  | x :: rest =>
    if x = c then [] :: splitOnChar c rest
    else
      match splitOnChar c rest with
      | t :: ts => (x :: t) :: ts
      | [] => [[x]]

/-- Full month names with their numbers (for `%B`, matched case-insensitively). -/
def monthsFull : List (String × Nat) :=
  [("january", 1), ("february", 2), ("march", 3), ("april", 4), ("may", 5),
   ("june", 6), ("july", 7), ("august", 8), ("september", 9), ("october", 10),
   ("november", 11), ("december", 12)]

/-- Abbreviated month names (for `%b`). -/
def monthsAbbr : List (String × Nat) :=
  [("jan", 1), ("feb", 2), ("mar", 3), ("apr", 4), ("may", 5), ("jun", 6),
   ("jul", 7), ("aug", 8), ("sep", 9), ("oct", 10), ("nov", 11), ("dec", 12)]

/-- Look a month token up in a name table, case-insensitively. -/
def monthFromName (tbl : List (String × Nat)) (tok : List Char) : Option Nat :=
  tbl.lookup (pyLower (String.mk tok))

/-- Gregorian leap year. -/
def isLeap (y : Nat) : Bool :=
  y % 4 = 0 && (y % 100 ≠ 0 || y % 400 = 0)

/-- Days in a month. -/
def daysInMonth (y m : Nat) : Nat :=
  if m = 2 then (if isLeap y then 29 else 28)
  else if m = 4 || m = 6 || m = 9 || m = 11 then 30
  else 31

/-- Is `(y, m, d)` a constructible `datetime.date`? -/
def validYmd (y m d : Nat) : Bool :=
  1 ≤ y && y ≤ 9999 && 1 ≤ m && m ≤ 12 && 1 ≤ d && d ≤ daysInMonth y m

/-- `strptime` `%Y` field: exactly four digits. -/
def yearTok (l : List Char) : Option Nat :=
  if l.length = 4 && allDigits l then some (digitsVal l) else none

/-- `strptime` `%m` field: `1`..`9` or `01`..`12`. -/
def monthTok (l : List Char) : Option Nat :=
  if allDigits l then
    let v := digitsVal l
    if l.length = 1 && 1 ≤ v then some v
    else if l.length = 2 && 1 ≤ v && v ≤ 12 then some v
    else none
  else none

/-- `strptime` `%d` field: `1`..`9` or `01`..`31`. -/
def dayTok (l : List Char) : Option Nat :=
  if allDigits l then
    let v := digitsVal l
    if l.length = 1 && 1 ≤ v then some v
    else if l.length = 2 && 1 ≤ v && v ≤ 31 then some v
    else none
  else none

/-- Parse `"%Y-%m-%d"` (with `datetime` validity). -/
def parseIsoYmd (s : String) : Option (Nat × Nat × Nat) :=
  match splitOnChar '-' s.toList with
  | [yt, mt, dt] =>
    match yearTok yt, monthTok mt, dayTok dt with
    | some y, some m, some d => if validYmd y m d then some (y, m, d) else none
    | _, _, _ => none
  | _ => none

/-- Parse `"%B %d, %Y"` (or `%b` with the abbreviated table): a month name,
a day followed by the literal comma, and a four-digit year.  Inputs reaching
this parser are whitespace-collapsed by `_norm_str`, so format whitespace
corresponds to single spaces. -/
def parseMonthNameYmd (tbl : List (String × Nat)) (s : String) :
    Option (Nat × Nat × Nat) :=
  match splitOnChar ' ' s.toList with
  | [mt, dcomma, yt] =>
    match dcomma.reverse with
    | ',' :: drev =>
      match monthFromName tbl mt, dayTok drev.reverse, yearTok yt with
      | some m, some d, some y => if validYmd y m d then some (y, m, d) else none
      | _, _, _ => none
    | _ => none
  | _ => none

/-- Try the three full formats of `_date_iso` / `_badge_date`, in source
order: ISO, full month name, abbreviated month name. -/
def tryFullFormats (s : String) : Option (Nat × Nat × Nat) :=
  (parseIsoYmd s).orElse fun _ =>
    (parseMonthNameYmd monthsFull s).orElse fun _ =>
      parseMonthNameYmd monthsAbbr s

/-- `strftime("%Y-%m-%d")`: zero-padded ISO rendering. -/
def fmtIso (y m d : Nat) : String :=
  String.mk (padZ 4 (natToDigits y) ++ '-' :: (padZ 2 (natToDigits m) ++ '-' :: padZ 2 (natToDigits d)))

/-- Embeds `_date_iso` from `_normalize_row`: normalize, then try the three
formats, keeping the original string when none matches. -/
def dateIso (v : Val) : Option String :=
  match pyNormStr v with
  | none => none
  | some s =>
    match tryFullFormats s with
    | some (y, m, d) => some (fmtIso y m d)
    | none => some s

/-! ## The badge-date parser of `_normalize_row` -/

/-- Word character for the regex `\b` boundary. -/
def isWordChar (c : Char) : Bool := c.isAlphanum || c = '_'

/-- UI-chatter tokens stripped from badge text. -/
def uiTokens : List String := ["Total comments", "Open options", "See More", "Report"]

/-- Does one of `uiTokens` match at the head, followed by a word boundary? -/
def uiMatchAt (l : List Char) : Bool :=
  uiTokens.any fun t =>
    startsWithSeq t.toList l &&
      (match l.drop t.toList.length with
       | [] => true
       | c :: _ => !isWordChar c)

/-- Prefix before the first UI-token match
(`re.split(r'(?:Total comments|...)\b', s, 1)[0]`). -/
def uiSplit : List Char → List Char
  | [] => []
  | c :: rest => if uiMatchAt (c :: rest) then [] else c :: uiSplit rest

/-- Short-badge day token: one or two digits plus an optional ordinal suffix
(`st`/`nd`/`rd`/`th`, case-insensitive); returns the digit part. -/
def shortDayTok (l : List Char) : Option (List Char) :=
  let (ds, rest) := spanList isDigitCh l
  if ds.length = 1 || ds.length = 2 then
    match (pyLower (String.mk rest)).toList with
    | [] => some ds
    | ['s', 't'] => some ds
    | ['n', 'd'] => some ds
    | ['r', 'd'] => some ds
    | ['t', 'h'] => some ds
    | _ => none
  else none

/-- Short-badge month token: three or more letters. -/
def shortMonTok (l : List Char) : Option (List Char) :=
  if 3 ≤ l.length && l.all (fun c => c.isAlpha) then some l else none

/-- First short-date regex: `^(\d{1,2})(?:st|nd|rd|th)?\s+([A-Za-z]{3,})$`
on the stripped, collapsed input; returns (day digits, month word). -/
def shortDayMonth (s : String) : Option (List Char × List Char) :=
  match splitOnChar ' ' s.toList with
  | [dt, mt] =>
    match shortDayTok dt, shortMonTok mt with
    | some ds, some ms => some (ds, ms)
    | _, _ => none
  | _ => none

/-- Flipped short-date regex: month word first, then day. -/
def shortMonthDay (s : String) : Option (List Char × List Char) :=
  match splitOnChar ' ' s.toList with
  | [mt, dt] =>
    match shortDayTok dt, shortMonTok mt with
    | some ds, some ms => some (ds, ms)
    | _, _ => none
  | _ => none

/-- Recombined parse of `f"{day} {mon} {default_year}"` against
`"%d %b %Y"` then `"%d %B %Y"`: the year must render as exactly four digits
and the date must be constructible. -/
def shortRecombine (ds ms : List Char) (yr : Int) : Option (Nat × Nat × Nat) :=
  match dayTok ds with
  | none => none
  | some d =>
    match (monthFromName monthsAbbr ms).orElse fun _ => monthFromName monthsFull ms with
    | none => none
    | some m =>
      if 1000 ≤ yr && yr ≤ 9999 then
        let y := yr.toNat
        if validYmd y m d then some (y, m, d) else none
      else none

/-- Embeds `_badge_date` from `_normalize_row`: normalize, strip UI chatter,
try the three full formats, then the short day/month forms combined with the
default year (skipped when the default year is absent or `0`, which is falsy
in Python). -/
def badgeDate (v : Val) (defaultYear : Option Int) : Option String :=
  match pyNormStr v with
  | none => none
  | some s0 =>
    let s := pyStrip (String.mk (uiSplit s0.toList))
    match tryFullFormats s with
    | some (y, m, d) => some (fmtIso y m d)
    | none =>
      match (shortDayMonth s).orElse fun _ => shortMonthDay s with
      | none => none
      | some (ds, ms) =>
        match defaultYear with
        | none => none
        | some yr =>
          if yr = 0 then none
          else
            match shortRecombine ds ms yr with
            | some (y, m, d) => some (fmtIso y m d)
            | none => none

/-- Default year for badge dates: `int(date_added[:4])` when `date_added` is
a string of length at least four, exception-to-`None`. -/
def defaultYearOf (dateAdded : Option String) : Option Int :=
  match dateAdded with
  | none => none
  | some s =>
    if 4 ≤ s.toList.length then pyIntOfString (String.mk (s.toList.take 4))
    else none

/-! ## Rows and the Cleaner

`_drop_to_schema` projects a raw dict onto the sixteen `SCHEMA_FIELDS`,
filling missing keys with `None`; a raw row is therefore embedded as a
fixed record of sixteen `Val` fields whose absent entries are `vnone`
(the projection itself becomes the identity).  Non-dict items of the input
iterable are skipped by `clean_rows` before any processing, so the embedding
works directly with lists of row records. -/

/-- Raw scraped row after `_drop_to_schema`: the sixteen schema fields,
missing keys as `vnone`. -/
structure RawRow where
  program : Val := .vnone
  university : Val := .vnone
  date_added : Val := .vnone
  url : Val := .vnone
  status : Val := .vnone
  comments : Val := .vnone
  accept_date : Val := .vnone
  reject_date : Val := .vnone
  start_term : Val := .vnone
  start_year : Val := .vnone
  citizenship : Val := .vnone
  gre_total : Val := .vnone
  gre_verbal : Val := .vnone
  gre_aw : Val := .vnone
  degree : Val := .vnone
  gpa : Val := .vnone
deriving DecidableEq, Repr

/-- Normalized row produced by `_normalize_row`: each field has the type the
normalizer assigns to it. -/
structure NormRow where
  program : Option String
  university : Option String
  date_added : Option String
  url : Option String
  status : Option String
  comments : Option String
  accept_date : Option String
  reject_date : Option String
  start_term : Option String
  start_year : Option Int
  citizenship : Option String
  gre_total : Option Int
  gre_verbal : Option Int
  gre_aw : Option PyFloat
  degree : Option String
  gpa : Option PyFloat
deriving DecidableEq, Repr

/-- JSON round-trip of an optional string field. -/
def optStrVal : Option String → Val
  | none => .vnone
  | some s => .vstr s

/-- JSON round-trip of an optional int field. -/
def optIntVal : Option Int → Val
  | none => .vnone
  | some n => .vint n

/-- Round-trip of an optional float field back to a raw value. -/
def optFloatVal : Option PyFloat → Val
  | none => .vnone
  | some x => .vrat x

/-- View a cleaned row as a raw row again (what `clean_rows` sees when fed
its own JSON output). -/
def NormRow.toRaw (r : NormRow) : RawRow :=
  { program := optStrVal r.program
    university := optStrVal r.university
    date_added := optStrVal r.date_added
    url := optStrVal r.url
    status := optStrVal r.status
    comments := optStrVal r.comments
    accept_date := optStrVal r.accept_date
    reject_date := optStrVal r.reject_date
    start_term := optStrVal r.start_term
    start_year := optIntVal r.start_year
    citizenship := optStrVal r.citizenship
    gre_total := optIntVal r.gre_total
    gre_verbal := optIntVal r.gre_verbal
    gre_aw := optFloatVal r.gre_aw
    degree := optStrVal r.degree
    gpa := optFloatVal r.gpa }

/-- The `Cleaner`'s stored tunables (after the constructor's casts). -/
structure Cleaner where
  gpa_max : ℚ
  year_min : Int
  year_max : Int
  dedupe_by_url : Bool
  validate_with_dataclass : Bool
deriving DecidableEq, Repr

/-- Python `int(x)` on a number: truncation toward zero. -/
def pyIntCast (q : ℚ) : Int :=
  if 0 ≤ q then q.floor else q.ceil

/-- Embeds `Cleaner.__init__`: cast the tunables, then raise `ValueError`
exactly when `year_min > year_max`. -/
def cleanerNew (gpa_max year_min year_max : ℚ)
    (dedupe_by_url validate_with_dataclass : Bool) : Except String Cleaner :=
  let ym := pyIntCast year_min
  let yM := pyIntCast year_max
  if ym > yM then .error "year_min cannot be greater than year_max"
  else .ok { gpa_max := gpa_max, year_min := ym, year_max := yM,
             dedupe_by_url := dedupe_by_url,
             validate_with_dataclass := validate_with_dataclass }

/-- The defaulted constructor arguments (`Cleaner()`), successful by the
year check `1950 ≤ 2035`. -/
def defaultCleaner : Cleaner :=
  { gpa_max := 5, year_min := 1950, year_max := 2035,
    dedupe_by_url := true, validate_with_dataclass := true }

/-! ## Field normalizers (the body of `_normalize_row`) -/

/-- Status canonicalization block of `_normalize_row`. -/
def normStatus (v : Val) : Option String :=
  match pyNormStr v with
  | none => none
  | some t =>
    let s := removeSpaces (pyLower t)
    if pyContains s "wait" then some "Waitlisted"
    else if s = "accepted" then some "Accepted"
    else if s = "rejected" then some "Rejected"
    else if s = "interview" then some "Interview"
    else if s = "pending" then some "Pending"
    else some "Pending"

/-- The degree mapping table `deg_map`. -/
def degMap : List (String × String) :=
  [("masters", "Masters"), ("master's", "Masters"), ("ms", "Masters"),
   ("phd", "PhD"), ("mfa", "MFA"), ("mba", "MBA"),
   ("jd", "JD"), ("edd", "EdD"), ("psyd", "PsyD"), ("other", "Other")]

/-- Degree block: lowercase, remove periods, fold the right single quote to
an apostrophe, then look the token up (`deg_map.get(deg_field, None)`). -/
def normDegree (v : Val) : Option String :=
  match pyNormStr v with
  | none => none
  | some t =>
    degMap.lookup (replaceChar '’' '\'' (removeChar '.' (pyLower t)))

/-- Start-term block with its synonym folds. -/
def normTerm (v : Val) : Option String :=
  match pyNormStr v with
  | none => none
  | some traw =>
    let t := pyLower traw
    if t = "fall" || t = "autumn" then some "Fall"
    else if t = "spring" then some "Spring"
    else if pyStartsWith t "summer" then some "Summer"
    else if t = "winter" then some "Spring"
    else if t = "q1" || t = "quarter1" then some "Spring"
    else if t = "q2" || t = "quarter2" then some "Summer"
    else if t = "q3" || t = "quarter3" then some "Fall"
    else if t = "q4" || t = "quarter4" then some "Fall"
    else none

/-- Bounded `start_year`. -/
def normYear (c : Cleaner) (v : Val) : Option Int :=
  match pyToInt v with
  | none => none
  | some sy => if sy < c.year_min || sy > c.year_max then none else some sy

/-- Citizenship block (prefix matching). -/
def normCitizenship (v : Val) : Option String :=
  match pyNormStr v with
  | none => none
  | some craw =>
    let c := pyLower craw
    if pyStartsWith c "inter" then some "International"
    else if pyStartsWith c "amer" then some "American"
    else none

/-- Bounded GPA.  The source's check is in reject form
(`gpa < 0.0 or gpa > float(self.gpa_max)` nulls the value): under Python
float comparisons NaN fails both tests and is therefore kept. -/
def normGpa (c : Cleaner) (v : Val) : Option PyFloat :=
  match pyToFloat v with
  | none => none
  | some g =>
    if PyFloat.lt g (.finite 0) || PyFloat.lt (.finite c.gpa_max) g then none
    else some g

/-- Bounded GRE total. -/
def normGreTotal (v : Val) : Option Int :=
  match pyToInt v with
  | none => none
  | some g => if 260 ≤ g && g ≤ 340 then some g else none

/-- Bounded GRE verbal. -/
def normGreVerbal (v : Val) : Option Int :=
  match pyToInt v with
  | none => none
  | some g => if 130 ≤ g && g ≤ 170 then some g else none

/-- Bounded GRE analytical writing.  Unlike the GPA check this one is in
accept form (`0.0 <= gaw <= 6.0` keeps the value), so NaN is nulled. -/
def normGreAw (v : Val) : Option PyFloat :=
  match pyToFloat v with
  | none => none
  | some g =>
    if PyFloat.le (.finite 0) g && PyFloat.le g (.finite 6) then some g else none

/-- Embeds `_normalize_row`. -/
def normalizeRow (c : Cleaner) (r : RawRow) : NormRow :=
  let dateAdded := dateIso r.date_added
  let dy := defaultYearOf dateAdded
  { program := pyNormStr r.program
    university := pyNormStr r.university
    url := pyNormStr r.url
    status := normStatus r.status
    date_added := dateAdded
    comments := pyNormStr r.comments
    degree := normDegree r.degree
    start_term := normTerm r.start_term
    start_year := normYear c r.start_year
    citizenship := normCitizenship r.citizenship
    gpa := normGpa c r.gpa
    gre_total := normGreTotal r.gre_total
    gre_verbal := normGreVerbal r.gre_verbal
    gre_aw := normGreAw r.gre_aw
    accept_date := badgeDate r.accept_date dy
    reject_date := badgeDate r.reject_date dy }

/-- One required field passes the gate: a string, non-empty after strip. -/
def strOk : Option String → Bool
  | none => false
  | some s => !(stripList s.toList).isEmpty

/-- The five-field requirement gate of `clean_rows`. -/
def requiredOk (n : NormRow) : Bool :=
  strOk n.program && strOk n.university && strOk n.date_added &&
    strOk n.url && strOk n.status

/-- Worker of `_dedupe_by_url`: keep falsy-URL rows unconditionally, drop a
truthy-URL row whose whitespace-stripped URL was already seen. -/
def dedupeGo (seen : List String) : List NormRow → List NormRow
  | [] => []
  | r :: rest =>
    match r.url with
    | none => r :: dedupeGo seen rest
    | some u =>
      if u.isEmpty then r :: dedupeGo seen rest
      else
        let key := pyStrip u
        if seen.contains key then dedupeGo seen rest
        else r :: dedupeGo (key :: seen) rest

/-- Embeds `Cleaner._dedupe_by_url` (identity when the tunable is off). -/
def dedupeByUrl (c : Cleaner) (rows : List NormRow) : List NormRow :=
  if c.dedupe_by_url then dedupeGo [] rows else rows

/-- Embeds `Cleaner.clean_rows`: normalize every row, drop rows failing the
required-field gate, then deduplicate by URL.  The dataclass-validation hook
inside the loop is a no-op for rows shaped by `_drop_to_schema`
(the dataclasses carry no runtime type checks and every schema key is
present), so it does not appear in the embedding. -/
def cleanRows (c : Cleaner) (rows : List RawRow) : List NormRow :=
  dedupeByUrl c ((rows.map (normalizeRow c)).filter requiredOk)

/-- Python-truthiness of a row's URL (`if not u` in `_dedupe_by_url`):
truthy means present and non-empty. -/
def truthyUrl (r : NormRow) : Bool :=
  match r.url with
  | none => false
  | some u => !u.isEmpty

/-- The dedupe key of a row: its whitespace-stripped URL. -/
def urlKey (r : NormRow) : String :=
  pyStrip (r.url.getD "")

/-- The closed status set `STATUS_ALLOWED` of `clean.py`. -/
def STATUS_ALLOWED : List String :=
  ["Accepted", "Rejected", "Interview", "Waitlisted", "Pending"]

/-- The closed degree set `DEGREE_ALLOWED` of `clean.py`. -/
def DEGREE_ALLOWED : List String :=
  ["Masters", "PhD", "MFA", "MBA", "JD", "EdD", "PsyD", "Other"]

/-- The closed term set `TERM_ALLOWED` of `clean.py`. -/
def TERM_ALLOWED : List String := ["Fall", "Spring", "Summer"]

/-- The closed citizenship set `CIT_ALLOWED` of `clean.py`. -/
def CIT_ALLOWED : List String := ["International", "American"]

/-- A fully populated raw scraped row (shared by the concrete scenarios). -/
def sampleRaw : RawRow :=
  { program := .vstr "Computer Science", university := .vstr "MIT",
    date_added := .vstr "Jan 5, 2024", url := .vstr "http://x/1",
    status := .vstr "Accepted", comments := .vstr "ok",
    accept_date := .vstr "28 Aug", reject_date := .vnone,
    start_term := .vstr "Fall", start_year := .vint 2024,
    citizenship := .vstr "American", gre_total := .vint 325,
    gre_verbal := .vint 160, gre_aw := .vrat (.finite (mkRat 9 2)),
    degree := .vstr "PhD", gpa := .vrat (.finite (mkRat 19 5)) }

/-- Is an optional string a fixed point of string normalization?
Absent values count as fixed. -/
def normFixedB (o : Option String) : Bool :=
  match o with
  | none => true
  | some s => normStr s == some s

/-- Are all free-text fields of a cleaned row fixed points of string
normalization?  This is the row-level condition under which a second
cleaning pass cannot re-interpret markup or HTML entities. -/
def rowTextFixed (r : NormRow) : Bool :=
  normFixedB r.program && normFixedB r.university && normFixedB r.url &&
    normFixedB r.comments && normFixedB r.date_added &&
    normFixedB r.accept_date && normFixedB r.reject_date

/-- The sample raw row with an HTML-escaped program name: the escape is
decoded by the first cleaning pass and re-read as a markup tag by the
second. -/
def entityRaw : RawRow :=
  { sampleRaw with program := Val.vstr "&lt;b&gt;" }

/-- The sample raw row with a gpa of the string "nan": `float("nan")`
parses it to NaN, and NaN fails both comparisons of the reject-form
range check, so it is kept. -/
def nanGpaRaw : RawRow :=
  { sampleRaw with gpa := Val.vstr "nan" }

/-- A minimal cleaned row with the given program, university and URL
(shared by the concrete scenarios below). -/
def mkNormRow (p u url : String) : NormRow :=
  { program := some p, university := some u, date_added := some "2024-01-05",
    url := some url, status := some "Accepted", comments := none,
    accept_date := none, reject_date := none, start_term := none,
    start_year := none, citizenship := none, gre_total := none,
    gre_verbal := none, gre_aw := none, degree := none, gpa := none }

/-! ## LLM enrichment (`Cleaner.extend_with_llm` and `LLMClient.canonize_batch`) -/

/-- One label object as returned by a canonization client: the values found
under `program_canon` / `university_canon`, with `vnone` for an absent key
or a JSON null (`dict.get` returns `None` for both). -/
structure Label where
  program_canon : Val := .vnone
  university_canon : Val := .vnone
deriving DecidableEq, Repr

/-- The all-null placeholder label. -/
def nullLabel : Label := {}

/-- Extended row: a cleaned row plus the two enrichment fields attached by
`extend_with_llm` (their raw returned values, of any JSON scalar shape). -/
structure ExtRow extends NormRow where
  program_canon : Val
  university_canon : Val
deriving DecidableEq, Repr

/-- Input text for the canonization CLI:
`f"{(program or '').strip()}, {(university or '').strip()}".strip(", ")`. -/
def buildText (r : NormRow) : String :=
  let a := pyStrip (r.program.getD "")
  let b := pyStrip (r.university.getD "")
  String.mk (stripCharsList [',', ' '] (a ++ ", " ++ b).toList)

/-- Pure per-row merge of the loop of `extend_with_llm`: attach both canon
values verbatim, then override a primary field when the returned value is a
string that is non-empty after trimming. -/
def mergeBase (r : NormRow) (lab : Label) : ExtRow :=
  let out0 : ExtRow :=
    { toNormRow := r, program_canon := lab.program_canon,
      university_canon := lab.university_canon }
  let out1 :=
    match lab.program_canon with
    | .vstr s => if !(pyStrip s).isEmpty then { out0 with program := some (pyStrip s) } else out0
    | _ => out0
  match lab.university_canon with
  | .vstr s => if !(pyStrip s).isEmpty then { out1 with university := some (pyStrip s) } else out1
  | _ => out1

/-- Full per-row step of the loop of `extend_with_llm`: the pure merge
followed — when dataclass validation is active (`useVal` stands for
`validate_with_dataclass and (ApplicantEntry or ApplicantEntryExtended)`
and `valid` for the instantiation succeeding) — by the rollback of the
`except` branch on a validation failure. -/
def mergeOne (useVal : Bool) (valid : ExtRow → Bool) (r : NormRow) (lab : Label) : ExtRow :=
  let out := mergeBase r lab
  if useVal && !valid out then
    { out with
        program := r.program
        university := r.university
        program_canon := .vnone
        university_canon := .vnone }
  else out

/-- Embeds `Cleaner.extend_with_llm` given the label list returned by the
client: an early `[]` for no rows, then `zip(rows, labels)` merged row by
row (`zip` silently truncates to the shorter list). -/
def extendWithLLM (useVal : Bool) (valid : ExtRow → Bool)
    (rows : List NormRow) (labels : List Label) : List ExtRow :=
  match rows with
  | [] => []
  | _ => (rows.zip labels).map fun p => mergeOne useVal valid p.1 p.2

/-- Tail of `LLMClient.canonize_batch`: the labels parsed from the backend's
JSONL output are padded with null-label placeholders up to the input count
and then truncated to exactly that count. -/
def canonizeBatchPad (n : Nat) (parsed : List Label) : List Label :=
  (parsed ++ List.replicate (n - parsed.length) nullLabel).take n

/-! ## Loader

Modelled from the spec: `data/loader.py` (`load_applicants`) is not among
the sources — only its tests (`module_3/tests/test_loader_dedupe.py`) and
callers (`application/services.py`, `scripts/load_db.py`) are.  Per §4.5 of
the specification, `load(rows)` returns counters with
`attempted == inserted + skipped == len(rows)`, performing for each row an
insert that is a no-op when a row with the same natural key (the listing
URL) already exists in storage.  Storage is modelled as the list of
previously inserted rows and the natural key as the row's `url` value. -/

/-- Loader statistics dictionary. -/
structure LoadStats where
  attempted : Nat
  inserted : Nat
  skipped : Nat
deriving DecidableEq, Repr

/-- Does storage already hold a row with this natural key? -/
def storedHasUrl (db : List ExtRow) (u : Option String) : Bool :=
  db.any fun x => x.url = u

/-- Fold of the insert-if-absent upsert over the batch. -/
def loadGo : List ExtRow → Nat → Nat → List ExtRow → Nat × Nat × List ExtRow
  | db, ins, skp, [] => (ins, skp, db)
  | db, ins, skp, r :: rest =>
    if storedHasUrl db r.url then loadGo db ins (skp + 1) rest
    else loadGo (db ++ [r]) (ins + 1) skp rest

/-- Modelled from the spec: `load_applicants(rows)` over a storage state,
returning the stats mapping and the new storage state. -/
def load_applicants (db : List ExtRow) (rows : List ExtRow) : LoadStats × List ExtRow :=
  let t := loadGo db 0 0 rows
  ({ attempted := rows.length, inserted := t.1, skipped := t.2.1 }, t.2.2)

/-! ## The `/pull-data` handlers (module_4 and module_5 routes)

Each handler is embedded as a function of the externally visible request
state: whether the module-level `_pull_lock` is currently held by an
in-flight cycle, whether the caller requests JSON, and how the underlying
service call would end.  `blocked` models `threading.Lock.acquire` on a
held lock: the request neither receives an immediate response nor is
rejected — it queues until the lock frees (and then runs the pipeline). -/

/-- Outcome of the wrapped `svc_pull()` call. -/
inductive SvcOutcome where
  | ok
  | runtimeErr
  | otherErr
deriving DecidableEq, Repr

/-- Immediate externally visible response of a `/pull-data` POST. -/
inductive PullResp where
  | busyJson
  | busyRedirect
  | okJson
  | okRedirect
  | errJson
  | errRedirect
  | raised
  | blocked
deriving DecidableEq, Repr

/-- Embeds `module_4/src/app/routes.py: pull_data`: a held lock is detected
by `_pull_lock.locked()` and answered busy at once; otherwise the pipeline
runs under the lock.  The second component records whether a pipeline run
was started by this request. -/
def m4PullData (lockHeld wantsJson : Bool) (svc : SvcOutcome) : PullResp × Bool :=
  if lockHeld then ((if wantsJson then .busyJson else .busyRedirect), false)
  else
    match svc with
    | .ok => ((if wantsJson then .okJson else .okRedirect), true)
    | _ => ((if wantsJson then .errJson else .errRedirect), true)

/-- Embeds `module_5/src/app/routes.py: pull_data`: the body enters
`with _pull_lock:` directly, so a held lock blocks the request
(`threading.Lock.__enter__` waits; it never raises `RuntimeError`); the
busy 409 branch is reachable only when `svc_pull()` itself raises
`RuntimeError`, and any other exception propagates to Flask. -/
def m5PullData (lockHeld wantsJson : Bool) (svc : SvcOutcome) : PullResp × Bool :=
  if lockHeld then (.blocked, false)
  else
    match svc with
    | .ok => ((if wantsJson then .okJson else .okRedirect), true)
    | .runtimeErr => ((if wantsJson then .busyJson else .busyRedirect), true)
    | .otherErr => (.raised, true)

/-! ## Dedupe lemmas -/

theorem dedupeGo_sublist : ∀ (l : List NormRow) (seen : List String),
    (dedupeGo seen l).Sublist l := by
  intro l
  induction l with
  | nil => intro seen; simp [dedupeGo]
  | cons r rest ih =>
    intro seen
    cases hu : r.url with
    | none =>
      simp only [dedupeGo, hu]
      exact List.Sublist.cons₂ r (ih seen)
    | some u =>
      simp only [dedupeGo, hu]
      by_cases he : u.isEmpty
      · simp only [he, if_true]
        exact List.Sublist.cons₂ r (ih seen)
      · simp only [he, Bool.false_eq_true, if_false]
        by_cases hs : seen.contains (pyStrip u)
        · simp only [hs, if_true]
          exact List.Sublist.cons r (ih seen)
        · simp only [hs, Bool.false_eq_true, if_false]
          exact List.Sublist.cons₂ r (ih (pyStrip u :: seen))

theorem dedupeGo_falsy : ∀ (l : List NormRow) (seen : List String),
    (dedupeGo seen l).filter (fun r => !truthyUrl r) =
      l.filter (fun r => !truthyUrl r) := by
  intro l
  induction l with
  | nil => intro seen; rfl
  | cons r rest ih =>
    intro seen
    cases hu : r.url with
    | none =>
      have ht : truthyUrl r = false := by simp [truthyUrl, hu]
      simp only [dedupeGo, hu, List.filter_cons, ht, Bool.not_false, if_true, ih seen]
    | some u =>
      by_cases he : u.isEmpty
      · have ht : truthyUrl r = false := by simp [truthyUrl, hu, he]
        simp only [dedupeGo, hu, he, if_true, List.filter_cons, ht, Bool.not_false,
          if_true, ih seen]
      · have ht : truthyUrl r = true := by simp [truthyUrl, hu, he]
        by_cases hs : seen.contains (pyStrip u)
        · simp only [dedupeGo, hu, he, Bool.false_eq_true, if_false, hs, if_true,
            List.filter_cons, ht, Bool.not_true, ih seen]
        · simp only [dedupeGo, hu, he, Bool.false_eq_true, if_false, hs,
            List.filter_cons, ht, Bool.not_true, ih (pyStrip u :: seen)]

theorem dedupeGo_keys : ∀ (l : List NormRow) (seen : List String),
    List.Pairwise (fun a b => urlKey a ≠ urlKey b)
        ((dedupeGo seen l).filter truthyUrl) ∧
      ∀ r ∈ (dedupeGo seen l).filter truthyUrl, urlKey r ∉ seen := by
  intro l
  induction l with
  | nil => intro seen; simp [dedupeGo]
  | cons r rest ih =>
    intro seen
    cases hu : r.url with
    | none =>
      have ht : truthyUrl r = false := by simp [truthyUrl, hu]
      simpa only [dedupeGo, hu, List.filter_cons, ht, Bool.false_eq_true,
        if_false] using ih seen
    | some u =>
      by_cases he : u.isEmpty
      · have ht : truthyUrl r = false := by simp [truthyUrl, hu, he]
        simpa only [dedupeGo, hu, he, if_true, List.filter_cons, ht,
          Bool.false_eq_true, if_false] using ih seen
      · have ht : truthyUrl r = true := by simp [truthyUrl, hu, he]
        have hk : urlKey r = pyStrip u := by simp [urlKey, hu]
        by_cases hs : seen.contains (pyStrip u)
        · simpa only [dedupeGo, hu, he, Bool.false_eq_true, if_false, hs,
            if_true] using ih seen
        · obtain ⟨ihp, ihn⟩ := ih (pyStrip u :: seen)
          simp only [dedupeGo, hu, he, Bool.false_eq_true, if_false, hs,
            List.filter_cons, ht, if_true]
          constructor
          · refine List.Pairwise.cons ?_ ihp
            intro b hb
            have hbn := ihn b hb
            simp only [List.mem_cons, not_or] at hbn
            rw [hk]
            intro hcontra
            exact hbn.1 hcontra.symm
          · intro x hx
            rcases List.mem_cons.mp hx with h1 | h1
            · subst h1
              rw [hk]
              intro hmem
              exact hs (by simpa using hmem)
            · have hxn := ihn x h1
              simp only [List.mem_cons, not_or] at hxn
              exact hxn.2

theorem dedupeGo_find : ∀ (l : List NormRow) (seen : List String) (k : String),
    k ∉ seen →
    (dedupeGo seen l).find? (fun r => truthyUrl r && (urlKey r == k)) =
      l.find? (fun r => truthyUrl r && (urlKey r == k)) := by
  intro l
  induction l with
  | nil => intro seen k _; rfl
  | cons r rest ih =>
    intro seen k hk
    cases hu : r.url with
    | none =>
      have hp : (truthyUrl r && (urlKey r == k)) = false := by
        simp [truthyUrl, hu]
      simp only [dedupeGo, hu, List.find?_cons, hp]
      exact ih seen k hk
    | some u =>
      by_cases he : u.isEmpty
      · have hp : (truthyUrl r && (urlKey r == k)) = false := by
          simp [truthyUrl, hu, he]
        simp only [dedupeGo, hu, he, if_true, List.find?_cons, hp]
        exact ih seen k hk
      · have ht : truthyUrl r = true := by simp [truthyUrl, hu, he]
        have hkey : urlKey r = pyStrip u := by simp [urlKey, hu]
        by_cases hs : seen.contains (pyStrip u)
        · have hne : pyStrip u ≠ k := by
            intro hcontra
            have hmem : pyStrip u ∈ seen := by simpa using hs
            exact hk (hcontra ▸ hmem)
          have hp : (truthyUrl r && (urlKey r == k)) = false := by
            simp [ht, hkey, hne]
          simp only [dedupeGo, hu, he, Bool.false_eq_true, if_false, hs, if_true,
            List.find?_cons, hp]
          exact ih seen k hk
        · by_cases hek : pyStrip u = k
          · have hp : (truthyUrl r && (urlKey r == k)) = true := by
              simp [ht, hkey, hek]
            simp only [dedupeGo, hu, he, Bool.false_eq_true, if_false, hs,
              List.find?_cons, hp, if_true]
          · have hp : (truthyUrl r && (urlKey r == k)) = false := by
              simp [ht, hkey, hek]
            have hk' : k ∉ pyStrip u :: seen := by
              simp only [List.mem_cons, not_or]
              exact ⟨fun hcontra => hek hcontra.symm, hk⟩
            simp only [dedupeGo, hu, he, Bool.false_eq_true, if_false, hs,
              List.find?_cons, hp]
            exact ih (pyStrip u :: seen) k hk'

/-! ## Normalizer range lemmas -/

theorem lookup_val_mem {α β : Type} [BEq α] :
    ∀ (l : List (α × β)) (k : α) (v : β), l.lookup k = some v → v ∈ l.map Prod.snd := by
  intro l
  induction l with
  | nil => intro k v h; simp [List.lookup] at h
  | cons e rest ih =>
    intro k v h
    rw [List.lookup] at h
    cases he : (k == e.1) with
    | true =>
      simp only [he] at h
      cases h
      simp
    | false =>
      simp only [he] at h
      simp only [List.map_cons, List.mem_cons]
      exact Or.inr (ih k v h)

theorem normStatus_mem (v : Val) (s : String) (h : normStatus v = some s) :
    s ∈ STATUS_ALLOWED := by
  unfold normStatus at h
  split at h
  · cases h
  · dsimp only at h
    split_ifs at h <;> (cases h; simp [STATUS_ALLOWED])

theorem normDegree_mem (v : Val) (s : String) (h : normDegree v = some s) :
    s ∈ DEGREE_ALLOWED := by
  unfold normDegree at h
  split at h
  · cases h
  · have hm := lookup_val_mem degMap _ s h
    have hall : ∀ x ∈ degMap.map Prod.snd, x ∈ DEGREE_ALLOWED := by decide
    exact hall s hm

theorem normTerm_mem (v : Val) (s : String) (h : normTerm v = some s) :
    s ∈ TERM_ALLOWED := by
  unfold normTerm at h
  split at h
  · cases h
  · dsimp only at h
    split_ifs at h <;> (cases h <;> simp [TERM_ALLOWED])

theorem normCitizenship_mem (v : Val) (s : String) (h : normCitizenship v = some s) :
    s ∈ CIT_ALLOWED := by
  unfold normCitizenship at h
  split at h
  · cases h
  · dsimp only at h
    split_ifs at h <;> (cases h <;> simp [CIT_ALLOWED])

theorem normGpa_cases (c : Cleaner) (v : Val) (g : PyFloat)
    (h : normGpa c v = some g) :
    g = PyFloat.nan ∨ ∃ q, g = PyFloat.finite q ∧ 0 ≤ q ∧ q ≤ c.gpa_max := by
  unfold normGpa at h
  split at h
  · cases h
  · split_ifs at h with hb <;> cases h
    simp only [Bool.or_eq_true, not_or] at hb
    obtain ⟨hb1, hb2⟩ := hb
    cases g with
    | nan => exact Or.inl rfl
    | finite q =>
      refine Or.inr ⟨q, rfl, ?_, ?_⟩
      · have hq : ¬(q < 0) := by simpa [PyFloat.lt] using hb1
        exact le_of_not_lt hq
      · have hq : ¬(c.gpa_max < q) := by simpa [PyFloat.lt] using hb2
        exact le_of_not_lt hq
    | inf => exact absurd (show PyFloat.lt (.finite c.gpa_max) .inf = true from rfl) hb2
    | ninf => exact absurd (show PyFloat.lt .ninf (.finite 0) = true from rfl) hb1

theorem normYear_bounds (c : Cleaner) (v : Val) (y : Int) (h : normYear c v = some y) :
    c.year_min ≤ y ∧ y ≤ c.year_max := by
  unfold normYear at h
  split at h
  · cases h
  · split_ifs at h with hb <;> cases h
    simp only [Bool.or_eq_true, decide_eq_true_eq, not_or] at hb
    omega

theorem normGreTotal_bounds (v : Val) (g : Int) (h : normGreTotal v = some g) :
    260 ≤ g ∧ g ≤ 340 := by
  unfold normGreTotal at h
  split at h
  · cases h
  · split_ifs at h with hb <;> cases h
    simp only [Bool.and_eq_true, decide_eq_true_eq] at hb
    omega

theorem normGreVerbal_bounds (v : Val) (g : Int) (h : normGreVerbal v = some g) :
    130 ≤ g ∧ g ≤ 170 := by
  unfold normGreVerbal at h
  split at h
  · cases h
  · split_ifs at h with hb <;> cases h
    simp only [Bool.and_eq_true, decide_eq_true_eq] at hb
    omega

theorem normGreAw_finite (v : Val) (g : PyFloat) (h : normGreAw v = some g) :
    ∃ q, g = PyFloat.finite q ∧ 0 ≤ q ∧ q ≤ 6 := by
  unfold normGreAw at h
  split at h
  · cases h
  · split_ifs at h with hb <;> cases h
    simp only [Bool.and_eq_true] at hb
    obtain ⟨hb1, hb2⟩ := hb
    cases g with
    | nan => exact absurd hb1 (by simp [PyFloat.le])
    | inf => exact absurd hb2 (by simp [PyFloat.le, PyFloat.lt])
    | ninf => exact absurd hb1 (by simp [PyFloat.le, PyFloat.lt])
    | finite q =>
      refine ⟨q, rfl, ?_, ?_⟩
      · have hq : ¬(q < 0) := by simpa [PyFloat.le, PyFloat.lt] using hb1
        exact le_of_not_lt hq
      · have hq : ¬(6 < q) := by simpa [PyFloat.le, PyFloat.lt] using hb2
        exact le_of_not_lt hq

theorem normGpa_noclamp (c : Cleaner) (v : Val) :
    normGpa c v = none ∨ normGpa c v = pyToFloat v := by
  unfold normGpa
  cases hf : pyToFloat v
  · exact Or.inl rfl
  · dsimp only
    split_ifs
    · exact Or.inl rfl
    · exact Or.inr rfl

theorem normYear_noclamp (c : Cleaner) (v : Val) :
    normYear c v = none ∨ normYear c v = pyToInt v := by
  unfold normYear
  cases hf : pyToInt v
  · exact Or.inl rfl
  · dsimp only
    split_ifs
    · exact Or.inl rfl
    · exact Or.inr rfl

theorem normGreTotal_noclamp (v : Val) :
    normGreTotal v = none ∨ normGreTotal v = pyToInt v := by
  unfold normGreTotal
  cases hf : pyToInt v
  · exact Or.inl rfl
  · dsimp only
    split_ifs
    · exact Or.inr rfl
    · exact Or.inl rfl

theorem normGreVerbal_noclamp (v : Val) :
    normGreVerbal v = none ∨ normGreVerbal v = pyToInt v := by
  unfold normGreVerbal
  cases hf : pyToInt v
  · exact Or.inl rfl
  · dsimp only
    split_ifs
    · exact Or.inr rfl
    · exact Or.inl rfl

theorem normGreAw_noclamp (v : Val) :
    normGreAw v = none ∨ normGreAw v = pyToFloat v := by
  unfold normGreAw
  cases hf : pyToFloat v
  · exact Or.inl rfl
  · dsimp only
    split_ifs
    · exact Or.inr rfl
    · exact Or.inl rfl

/-! ## Membership in `clean_rows` output -/

theorem mem_cleanRows (c : Cleaner) (rows : List RawRow) (r : NormRow)
    (h : r ∈ cleanRows c rows) :
    (∃ raw ∈ rows, r = normalizeRow c raw) ∧ requiredOk r = true := by
  have hx : r ∈ (rows.map (normalizeRow c)).filter requiredOk := by
    unfold cleanRows dedupeByUrl at h
    split at h
    · exact (dedupeGo_sublist _ []).mem h
    · exact h
  rw [List.mem_filter] at hx
  obtain ⟨hm, hq⟩ := hx
  rw [List.mem_map] at hm
  obtain ⟨raw, hraw, heq⟩ := hm
  exact ⟨⟨raw, hraw, heq.symm⟩, hq⟩

/-! ## Claim C3 -/

/-- Counterexample to C3 as stated: a raw gpa of "nan" parses to NaN,
NaN fails both comparisons of the reject-form range check
(`nan < 0.0` and `nan > gpa_max` are both false), so the cleaned row
carries a gpa of NaN — neither null nor within `[0, gpa_max]`. -/
theorem c3_counterexample :
    cleanRows defaultCleaner [nanGpaRaw] =
        [normalizeRow defaultCleaner nanGpaRaw] ∧
      (normalizeRow defaultCleaner nanGpaRaw).gpa = some PyFloat.nan ∧
      PyFloat.le (PyFloat.finite 0) PyFloat.nan = false ∧
      PyFloat.le PyFloat.nan (PyFloat.finite defaultCleaner.gpa_max) = false := by
  refine ⟨rfl, rfl, rfl, rfl⟩

/-- C3 (amended) — Canonical-output invariant up to NaN: every row returned
by `clean_rows` has a status in the closed status set; degree, start term
and citizenship values, when present, come from their closed sets; every
numeric field except `gpa` is absent or within its documented bound; `gpa`
is absent, within `[0, gpa_max]`, or NaN — the reject-form check
`gpa < 0.0 or gpa > gpa_max` lets NaN through because both comparisons are
false on NaN; and the numeric normalizers never clamp — each returns either
nothing or exactly the parsed input value. -/
theorem c3_canonical_invariant (c : Cleaner) (rows : List RawRow) (r : NormRow)
    (hr : r ∈ cleanRows c rows) :
    (∃ s, r.status = some s ∧ s ∈ STATUS_ALLOWED) ∧
    (∀ d, r.degree = some d → d ∈ DEGREE_ALLOWED) ∧
    (∀ t, r.start_term = some t → t ∈ TERM_ALLOWED) ∧
    (∀ z, r.citizenship = some z → z ∈ CIT_ALLOWED) ∧
    (∀ g, r.gpa = some g →
      g = PyFloat.nan ∨ ∃ q, g = PyFloat.finite q ∧ 0 ≤ q ∧ q ≤ c.gpa_max) ∧
    (∀ g, r.gre_total = some g → 260 ≤ g ∧ g ≤ 340) ∧
    (∀ g, r.gre_verbal = some g → 130 ≤ g ∧ g ≤ 170) ∧
    (∀ g, r.gre_aw = some g → ∃ q, g = PyFloat.finite q ∧ 0 ≤ q ∧ q ≤ 6) ∧
    (∀ y, r.start_year = some y → c.year_min ≤ y ∧ y ≤ c.year_max) ∧
    (∀ v, normGpa c v = none ∨ normGpa c v = pyToFloat v) ∧
    (∀ v, normYear c v = none ∨ normYear c v = pyToInt v) ∧
    (∀ v, normGreTotal v = none ∨ normGreTotal v = pyToInt v) ∧
    (∀ v, normGreVerbal v = none ∨ normGreVerbal v = pyToInt v) ∧
    (∀ v, normGreAw v = none ∨ normGreAw v = pyToFloat v) := by
  obtain ⟨⟨raw, -, heq⟩, hq⟩ := mem_cleanRows c rows r hr
  subst heq
  refine ⟨?_, ?_, ?_, ?_, ?_, ?_, ?_, ?_, ?_,
    normGpa_noclamp c, normYear_noclamp c, normGreTotal_noclamp,
    normGreVerbal_noclamp, normGreAw_noclamp⟩
  · unfold requiredOk at hq
    simp only [Bool.and_eq_true] at hq
    have hst := hq.2
    unfold strOk at hst
    cases hs : (normalizeRow c raw).status with
    | none => rw [hs] at hst; cases hst
    | some s =>
      refine ⟨s, rfl, ?_⟩
      have : normStatus raw.status = some s := hs
      exact normStatus_mem raw.status s this
  · intro d hd
    exact normDegree_mem raw.degree d hd
  · intro t ht
    exact normTerm_mem raw.start_term t ht
  · intro z hz
    exact normCitizenship_mem raw.citizenship z hz
  · intro g hg
    exact normGpa_cases c raw.gpa g hg
  · intro g hg
    exact normGreTotal_bounds raw.gre_total g hg
  · intro g hg
    exact normGreVerbal_bounds raw.gre_verbal g hg
  · intro g hg
    exact normGreAw_finite raw.gre_aw g hg
  · intro y hy
    exact normYear_bounds c raw.start_year y hy

/-- Witness for C3 (amended): the fully populated sample raw row survives
cleaning and its cleaned form satisfies the closed-set and bound clauses. -/
theorem c3_canonical_invariant_witness :
    (∃ s, (normalizeRow defaultCleaner sampleRaw).status = some s ∧
      s ∈ STATUS_ALLOWED) ∧
    (∀ g, (normalizeRow defaultCleaner sampleRaw).gpa = some g →
      g = PyFloat.nan ∨
        ∃ q, g = PyFloat.finite q ∧ 0 ≤ q ∧ q ≤ defaultCleaner.gpa_max) ∧
    (∀ d, (normalizeRow defaultCleaner sampleRaw).degree = some d →
      d ∈ DEGREE_ALLOWED) := by
  have hmem : normalizeRow defaultCleaner sampleRaw ∈
      cleanRows defaultCleaner [sampleRaw] := by
    rw [show cleanRows defaultCleaner [sampleRaw] =
      [normalizeRow defaultCleaner sampleRaw] from rfl]
    exact List.mem_singleton.mpr rfl
  have h := c3_canonical_invariant defaultCleaner [sampleRaw]
    (normalizeRow defaultCleaner sampleRaw) hmem
  exact ⟨h.1, h.2.2.2.2.1, h.2.1⟩

/-! ## Claim C2 -/

/-- C2 — Dedupe by URL: with the tunable on, the dedupe stage returns a
subsequence of its input (relative order preserved), keeps every row whose
URL is null or empty, leaves at most one surviving row per distinct
whitespace-trimmed URL among the truthy-URL rows, and the survivor for any
key is exactly the first row carrying that key in input order; `clean_rows`
output is exactly this stage applied to the normalized, gate-passing rows. -/
theorem c2_dedupe_by_url (c : Cleaner) (hc : c.dedupe_by_url = true)
    (rows : List NormRow) :
    (dedupeByUrl c rows).Sublist rows ∧
    (dedupeByUrl c rows).filter (fun r => !truthyUrl r) =
      rows.filter (fun r => !truthyUrl r) ∧
    List.Pairwise (fun a b => urlKey a ≠ urlKey b)
      ((dedupeByUrl c rows).filter truthyUrl) ∧
    (∀ k : String,
      (dedupeByUrl c rows).find? (fun r => truthyUrl r && (urlKey r == k)) =
        rows.find? (fun r => truthyUrl r && (urlKey r == k))) ∧
    (∀ raws : List RawRow,
      cleanRows c raws =
        dedupeByUrl c ((raws.map (normalizeRow c)).filter requiredOk)) := by
  have hd : dedupeByUrl c rows = dedupeGo [] rows := by
    simp [dedupeByUrl, hc]
  refine ⟨?_, ?_, ?_, ?_, fun raws => rfl⟩
  · rw [hd]; exact dedupeGo_sublist rows []
  · rw [hd]; exact dedupeGo_falsy rows []
  · rw [hd]; exact (dedupeGo_keys rows []).1
  · intro k; rw [hd]; exact dedupeGo_find rows [] k (by simp)

/-- Witness for C2 on a concrete three-row list: two rows trim to the same
URL key (only the first survives) alongside a null-URL row (always kept). -/
theorem c2_dedupe_by_url_witness :
    (dedupeByUrl defaultCleaner
        [mkNormRow "A" "U" "http://x/1", mkNormRow "B" "V" " http://x/1 ",
         { mkNormRow "C" "W" "z" with url := none }]).Sublist
      [mkNormRow "A" "U" "http://x/1", mkNormRow "B" "V" " http://x/1 ",
       { mkNormRow "C" "W" "z" with url := none }] ∧
    (dedupeByUrl defaultCleaner
        [mkNormRow "A" "U" "http://x/1", mkNormRow "B" "V" " http://x/1 ",
         { mkNormRow "C" "W" "z" with url := none }]).find?
        (fun r => truthyUrl r && (urlKey r == "http://x/1")) =
      some (mkNormRow "A" "U" "http://x/1") ∧
    dedupeByUrl defaultCleaner
        [mkNormRow "A" "U" "http://x/1", mkNormRow "B" "V" " http://x/1 ",
         { mkNormRow "C" "W" "z" with url := none }] =
      [mkNormRow "A" "U" "http://x/1", { mkNormRow "C" "W" "z" with url := none }] := by
  have h := c2_dedupe_by_url defaultCleaner rfl
    [mkNormRow "A" "U" "http://x/1", mkNormRow "B" "V" " http://x/1 ",
     { mkNormRow "C" "W" "z" with url := none }]
  refine ⟨h.1, ?_, by rfl⟩
  rw [h.2.2.2.1 "http://x/1"]
  rfl

/-! ## Claim C8 -/

/-- C8 — Status canonicalization: writing `s` for the lowercased,
space-stripped normalized status text, any `s` containing `"wait"` maps to
`Waitlisted`; exact matches to the remaining canonical tokens map to
themselves; any other normalized text maps to `Pending`; and a null or
empty input (normalization yields nothing) maps to null — in particular the
empty string is never sent to `Pending`. -/
theorem c8_status_canonicalization (v : Val) :
    (pyNormStr v = none → normStatus v = none) ∧
    (∀ t, pyNormStr v = some t →
      (pyContains (removeSpaces (pyLower t)) "wait" = true →
        normStatus v = some "Waitlisted") ∧
      (removeSpaces (pyLower t) = "accepted" → normStatus v = some "Accepted") ∧
      (removeSpaces (pyLower t) = "rejected" → normStatus v = some "Rejected") ∧
      (removeSpaces (pyLower t) = "interview" → normStatus v = some "Interview") ∧
      (pyContains (removeSpaces (pyLower t)) "wait" = false →
        removeSpaces (pyLower t) ∉ (["accepted", "rejected", "interview"] : List String) →
        normStatus v = some "Pending")) ∧
    normStatus (Val.vstr "") = none := by
  refine ⟨?_, ?_, by rfl⟩
  · intro h
    simp [normStatus, h]
  · intro t hv
    refine ⟨?_, ?_, ?_, ?_, ?_⟩
    · intro hw
      simp [normStatus, hv, hw]
    · intro hs
      simp only [normStatus, hv]
      rw [hs]
      rfl
    · intro hs
      simp only [normStatus, hv]
      rw [hs]
      rfl
    · intro hs
      simp only [normStatus, hv]
      rw [hs]
      rfl
    · intro hw hmem
      simp only [normStatus, hv, hw, Bool.false_eq_true, if_false]
      simp only [List.mem_cons, List.mem_singleton, not_or] at hmem
      obtain ⟨h1, h2, h3, -⟩ := hmem
      simp [h1, h2, h3]

/-- Witness for C8: a wait-variant maps to `Waitlisted` and unrecognized
non-empty text maps to `Pending`. -/
theorem c8_status_canonicalization_witness :
    normStatus (Val.vstr "Wait listed") = some "Waitlisted" ∧
    normStatus (Val.vstr "mystery") = some "Pending" := by
  have h1 := c8_status_canonicalization (Val.vstr "Wait listed")
  have h2 := c8_status_canonicalization (Val.vstr "mystery")
  constructor
  · exact ((h1.2.1 "Wait listed" (by rfl)).1 (by rfl))
  · exact ((h2.2.1 "mystery" (by rfl)).2.2.2.2 (by rfl) (by decide))

/-! ## Loader lemmas -/

theorem storedHasUrl_append (db e : List ExtRow) (u : Option String)
    (h : storedHasUrl db u = true) : storedHasUrl (db ++ e) u = true := by
  simp only [storedHasUrl, List.any_append, Bool.or_eq_true]
  exact Or.inl h

theorem loadGo_db_extends (rows : List ExtRow) :
    ∀ db ins skp, ∃ e, (loadGo db ins skp rows).2.2 = db ++ e := by
  induction rows with
  | nil => intro db ins skp; exact ⟨[], by simp [loadGo]⟩
  | cons r rest ih =>
    intro db ins skp
    by_cases h : storedHasUrl db r.url
    · simpa [loadGo, h] using ih db ins (skp + 1)
    · obtain ⟨e, he⟩ := ih (db ++ [r]) (ins + 1) skp
      exact ⟨[r] ++ e, by simp [loadGo, h, he]⟩

theorem loadGo_covers (rows : List ExtRow) :
    ∀ db ins skp r, r ∈ rows →
      storedHasUrl ((loadGo db ins skp rows).2.2) r.url = true := by
  induction rows with
  | nil => intro db ins skp r h; cases h
  | cons q rest ih =>
    intro db ins skp r h
    by_cases hq : storedHasUrl db q.url
    · rcases List.mem_cons.mp h with h1 | h1
      · subst h1
        obtain ⟨e, he⟩ := loadGo_db_extends rest db ins (skp + 1)
        simp only [loadGo, hq, if_pos, he]
        exact storedHasUrl_append db e r.url hq
      · simpa [loadGo, hq] using ih db ins (skp + 1) r h1
    · rcases List.mem_cons.mp h with h1 | h1
      · subst h1
        obtain ⟨e, he⟩ := loadGo_db_extends rest (db ++ [r]) (ins + 1) skp
        simp only [loadGo, hq, Bool.false_eq_true, if_false, he]
        apply storedHasUrl_append
        simp [storedHasUrl]
      · simpa [loadGo, hq] using ih (db ++ [q]) (ins + 1) skp r h1

theorem loadGo_all_skip (rows : List ExtRow) :
    ∀ db ins skp, (∀ r ∈ rows, storedHasUrl db r.url = true) →
      loadGo db ins skp rows = (ins, skp + rows.length, db) := by
  induction rows with
  | nil => intro db ins skp _; simp [loadGo]
  | cons r rest ih =>
    intro db ins skp h
    have hr : storedHasUrl db r.url = true := h r (by simp)
    have := ih db ins (skp + 1) (fun x hx => h x (by simp [hx]))
    simp only [loadGo, hr, if_pos, this, List.length_cons, Prod.mk.injEq]
    exact ⟨trivial, by omega, trivial⟩

/-! ## Claim C1 -/

/-- C1 — Loader idempotence: for every storage state and list of rows,
re-running `load_applicants` on the same rows reports `inserted == 0` and
`skipped == len(rows)`, and leaves storage unchanged (so in particular the
stored row count is unchanged by the second call). -/
theorem c1_loader_idempotence (db : List ExtRow) (rows : List ExtRow) :
    (load_applicants (load_applicants db rows).2 rows).1.inserted = 0 ∧
    (load_applicants (load_applicants db rows).2 rows).1.skipped = rows.length ∧
    (load_applicants (load_applicants db rows).2 rows).2 = (load_applicants db rows).2 := by
  have hcov : ∀ r ∈ rows, storedHasUrl ((loadGo db 0 0 rows).2.2) r.url = true :=
    fun r hr => loadGo_covers rows db 0 0 r hr
  have hskip := loadGo_all_skip rows ((loadGo db 0 0 rows).2.2) 0 0 hcov
  simp [load_applicants, hskip]

/-! ## Claim C10 -/

/-- C10 — Constructor precondition: `Cleaner.__init__` raises `ValueError`
exactly when `year_min > year_max` after integer casting (no other tunables
cause a failure), and every successfully constructed `Cleaner` satisfies
`year_min ≤ year_max`. -/
theorem c10_constructor_gate (g ym yM : ℚ) (d v : Bool) :
    ((cleanerNew g ym yM d v).isOk = true ↔ pyIntCast ym ≤ pyIntCast yM) ∧
    (∀ c : Cleaner, cleanerNew g ym yM d v = .ok c → c.year_min ≤ c.year_max) := by
  constructor
  · unfold cleanerNew
    by_cases h : pyIntCast ym > pyIntCast yM
    · simp [h, Except.isOk, Except.toBool]
    · simp [h, Except.isOk, Except.toBool]
      omega
  · intro c hc
    unfold cleanerNew at hc
    by_cases h : pyIntCast ym > pyIntCast yM
    · simp [h] at hc
    · simp [h] at hc
      rw [← hc]
      dsimp only
      omega

/-- Witness for C10 at the source's default tunables: construction succeeds
and the year bounds are ordered. -/
theorem c10_constructor_gate_witness :
    (cleanerNew 5 1950 2035 true true).isOk = true ∧
    (∀ c : Cleaner, cleanerNew 5 1950 2035 true true = .ok c →
      c.year_min ≤ c.year_max) := by
  have h := c10_constructor_gate 5 1950 2035 true true
  exact ⟨h.1.mpr (by decide), h.2⟩

/-! ## Enrichment lemmas -/

theorem extend_eq_zip (useVal : Bool) (valid : ExtRow → Bool)
    (rows : List NormRow) (labels : List Label) :
    extendWithLLM useVal valid rows labels =
      (rows.zip labels).map fun p => mergeOne useVal valid p.1 p.2 := by
  cases rows <;> rfl

theorem extend_cons (useVal : Bool) (valid : ExtRow → Bool) (r : NormRow)
    (rest : List NormRow) (m : Label) (ms : List Label) :
    extendWithLLM useVal valid (r :: rest) (m :: ms) =
      mergeOne useVal valid r m :: extendWithLLM useVal valid rest ms := by
  cases rest <;> rfl

theorem mergeOne_false (valid : ExtRow → Bool) (r : NormRow) (lab : Label) :
    mergeOne false valid r lab = mergeBase r lab := by
  simp [mergeOne]

theorem mergeBase_rollback (r : NormRow) (lab : Label) :
    { mergeBase r lab with
        program := r.program
        university := r.university
        program_canon := Val.vnone
        university_canon := Val.vnone } =
      ({ toNormRow := r, program_canon := Val.vnone,
         university_canon := Val.vnone } : ExtRow) := by
  cases lab with
  | mk pc uc =>
    cases pc <;> cases uc <;>
      simp [mergeBase] <;> split_ifs <;> rfl

theorem mergeOne_validated (valid : ExtRow → Bool) (r : NormRow) (lab : Label) :
    mergeOne true valid r lab =
      if valid (mergeBase r lab) then mergeBase r lab
      else { toNormRow := r, program_canon := Val.vnone,
             university_canon := Val.vnone } := by
  rw [mergeOne]
  by_cases h : valid (mergeBase r lab)
  · simp [h]
  · have hc : (true && !valid (mergeBase r lab)) = true := by simp [h]
    rw [if_pos hc, if_neg h]
    exact mergeBase_rollback r lab

theorem mergeOne_nullLabel (useVal : Bool) (valid : ExtRow → Bool) (r : NormRow) :
    mergeOne useVal valid r nullLabel =
      ({ toNormRow := r, program_canon := Val.vnone,
         university_canon := Val.vnone } : ExtRow) := by
  have hb : mergeBase r nullLabel =
      ({ toNormRow := r, program_canon := Val.vnone,
         university_canon := Val.vnone } : ExtRow) := by
    simp [mergeBase, nullLabel]
  rw [mergeOne]
  split
  · rw [hb]
  · exact hb

theorem canonizeBatchPad_nil (n : Nat) :
    canonizeBatchPad n [] = List.replicate n nullLabel := by
  simp [canonizeBatchPad]

theorem canonizeBatchPad_cons (n : Nat) (p : Label) (ps : List Label) :
    canonizeBatchPad (n + 1) (p :: ps) = p :: canonizeBatchPad n ps := by
  simp [canonizeBatchPad, Nat.succ_sub_succ]

theorem canonizeBatchPad_length (n : Nat) (ps : List Label) :
    (canonizeBatchPad n ps).length = n := by
  simp [canonizeBatchPad]
  omega

theorem extend_replicate (useVal : Bool) (valid : ExtRow → Bool) :
    ∀ rows : List NormRow,
      extendWithLLM useVal valid rows (List.replicate rows.length nullLabel) =
        rows.map fun r =>
          ({ toNormRow := r, program_canon := Val.vnone,
             university_canon := Val.vnone } : ExtRow) := by
  intro rows
  induction rows with
  | nil => rfl
  | cons r rest ih =>
    rw [List.length_cons, List.replicate_succ, extend_cons, mergeOne_nullLabel,
      List.map_cons, ih]

theorem extend_padded_drop (useVal : Bool) (valid : ExtRow → Bool) :
    ∀ (parsed : List Label) (rows : List NormRow),
      (extendWithLLM useVal valid rows (canonizeBatchPad rows.length parsed)).drop
          parsed.length =
        (rows.drop parsed.length).map fun r =>
          ({ toNormRow := r, program_canon := Val.vnone,
             university_canon := Val.vnone } : ExtRow) := by
  intro parsed
  induction parsed with
  | nil =>
    intro rows
    simp only [canonizeBatchPad_nil, List.length_nil, List.drop_zero]
    exact extend_replicate useVal valid rows
  | cons p ps ih =>
    intro rows
    cases rows with
    | nil => rfl
    | cons r rest =>
      simp only [List.length_cons]
      rw [canonizeBatchPad_cons, extend_cons]
      simp only [List.drop_succ_cons]
      exact ih rest

theorem extend_padded_length (useVal : Bool) (valid : ExtRow → Bool)
    (rows : List NormRow) (parsed : List Label) :
    (extendWithLLM useVal valid rows (canonizeBatchPad rows.length parsed)).length =
      rows.length := by
  rw [extend_eq_zip]
  simp [canonizeBatchPad_length]

theorem extend_get (useVal : Bool) (valid : ExtRow → Bool) :
    ∀ (rows : List NormRow) (labels : List Label) (i : Nat) (r : NormRow) (lab : Label),
      rows.get? i = some r → labels.get? i = some lab →
      (extendWithLLM useVal valid rows labels).get? i =
        some (mergeOne useVal valid r lab) := by
  intro rows
  induction rows with
  | nil => intro labels i r lab hr; simp at hr
  | cons q rest ih =>
    intro labels i r lab hr hl
    cases labels with
    | nil => simp at hl
    | cons m ms =>
      rw [extend_cons]
      cases i with
      | zero =>
        simp at hr hl
        subst hr; subst hl
        rfl
      | succ j =>
        simp only [List.get?] at hr hl
        simp only [List.get?]
        exact ih ms j r lab hr hl

/-! ## Claim C4 -/

/-- C4 counterexample: `Cleaner.extend_with_llm` itself does not tolerate a
client returning fewer labels than rows — `zip(rows, labels)` truncates, so
three rows with a one-label client result yield one output row, not three. -/
theorem c4_counterexample :
    (extendWithLLM false (fun _ => true)
        [mkNormRow "A" "U1" "u1", mkNormRow "B" "U2" "u2", mkNormRow "C" "U3" "u3"]
        [nullLabel]).length = 1 ∧
    (extendWithLLM false (fun _ => true)
        [mkNormRow "A" "U1" "u1", mkNormRow "B" "U2" "u2", mkNormRow "C" "U3" "u3"]
        [nullLabel]).length ≠ 3 := by
  refine ⟨rfl, ?_⟩
  intro h
  rw [show (extendWithLLM false (fun _ => true)
      [mkNormRow "A" "U1" "u1", mkNormRow "B" "U2" "u2", mkNormRow "C" "U3" "u3"]
      [nullLabel]).length = 1 from rfl] at h
  exact absurd h (by decide)

/-- C4 (amended) — Count-mismatch tolerance lives in
`LLMClient.canonize_batch`: the labels parsed from the backend are padded
with null placeholders and truncated to exactly the input count before the
merge, so the merged output has exactly one row per input row, and the input
rows beyond the parsed labels appear unchanged with both canon fields null.
`Cleaner.extend_with_llm` with a client returning a shorter list instead
truncates to the shorter length. -/
theorem c4_count_tolerance (useVal : Bool) (valid : ExtRow → Bool)
    (rows : List NormRow) (parsed : List Label)
    (hp : parsed.length ≤ rows.length) :
    (extendWithLLM useVal valid rows (canonizeBatchPad rows.length parsed)).length =
      rows.length ∧
    (extendWithLLM useVal valid rows (canonizeBatchPad rows.length parsed)).drop
        parsed.length =
      (rows.drop parsed.length).map fun r =>
        ({ toNormRow := r, program_canon := Val.vnone,
           university_canon := Val.vnone } : ExtRow) :=
  ⟨extend_padded_length useVal valid rows parsed,
   extend_padded_drop useVal valid parsed rows⟩

/-- Witness for C4 (amended) at the spec's own example: three texts, one
parsed label — exactly three output rows, the last two with null canon
fields. -/
theorem c4_count_tolerance_witness :
    (extendWithLLM false (fun _ => true)
        [mkNormRow "A" "U1" "u1", mkNormRow "B" "U2" "u2", mkNormRow "C" "U3" "u3"]
        (canonizeBatchPad 3 [{ program_canon := Val.vstr "X",
                               university_canon := Val.vstr "Y" }])).length = 3 ∧
    (extendWithLLM false (fun _ => true)
        [mkNormRow "A" "U1" "u1", mkNormRow "B" "U2" "u2", mkNormRow "C" "U3" "u3"]
        (canonizeBatchPad 3 [{ program_canon := Val.vstr "X",
                               university_canon := Val.vstr "Y" }])).drop 1 =
      [{ toNormRow := mkNormRow "B" "U2" "u2", program_canon := Val.vnone,
         university_canon := Val.vnone },
       { toNormRow := mkNormRow "C" "U3" "u3", program_canon := Val.vnone,
         university_canon := Val.vnone }] := by
  have h := c4_count_tolerance false (fun _ => true)
    [mkNormRow "A" "U1" "u1", mkNormRow "B" "U2" "u2", mkNormRow "C" "U3" "u3"]
    [{ program_canon := Val.vstr "X", university_canon := Val.vstr "Y" }]
    (by decide)
  exact ⟨h.1, h.2⟩

/-! ## Claim C5 -/

/-- C5 counterexample: an empty-string canonical response leaves the canon
field holding the empty string (present and non-null), while the claim says
it becomes null. -/
theorem c5_counterexample :
    (extendWithLLM false (fun _ => true) [mkNormRow "A" "U" "u"]
        [{ program_canon := Val.vstr "", university_canon := Val.vnone }]).map
        (fun e => e.program_canon) = [Val.vstr ""] ∧
    Val.vstr "" ≠ Val.vnone := by
  exact ⟨rfl, by decide⟩

/-- C5 (amended) — Override rule of the merge step (before any
dataclass-validation rollback): when the returned canonical value is a
string that is non-empty after trimming, the primary field becomes the
trimmed value; otherwise the primary field is unchanged; in every case the
canon field holds the returned value verbatim (so it is null exactly when
the client returned null/absent, and it keeps empty or untrimmed strings
as-is). -/
theorem c5_override_rule (valid : ExtRow → Bool) (r : NormRow) (lab : Label) :
    (mergeOne false valid r lab).program_canon = lab.program_canon ∧
    (mergeOne false valid r lab).university_canon = lab.university_canon ∧
    (mergeOne false valid r lab).program =
      (match lab.program_canon with
       | Val.vstr s => if (pyStrip s).isEmpty then r.program else some (pyStrip s)
       | _ => r.program) ∧
    (mergeOne false valid r lab).university =
      (match lab.university_canon with
       | Val.vstr s => if (pyStrip s).isEmpty then r.university else some (pyStrip s)
       | _ => r.university) := by
  rw [mergeOne_false]
  cases lab with
  | mk pc uc =>
    cases pc <;> cases uc <;>
      simp [mergeBase] <;> split_ifs <;> simp_all

/-! ## Claim C6 -/

/-- C6 — Per-row enrichment atomicity: with strict validation enabled, a row
whose merged result fails validation is fully rolled back (primary fields
revert to their pre-merge values, both canon fields become null) while every
row whose merged result validates keeps its merge, and the loop processes
one output row per zipped input pair. -/
theorem c6_rollback_atomicity (valid : ExtRow → Bool)
    (rows : List NormRow) (labels : List Label) :
    (∀ i r lab, rows.get? i = some r → labels.get? i = some lab →
      valid (mergeBase r lab) = false →
      (extendWithLLM true valid rows labels).get? i =
        some { toNormRow := r, program_canon := Val.vnone,
               university_canon := Val.vnone }) ∧
    (∀ j r lab, rows.get? j = some r → labels.get? j = some lab →
      valid (mergeBase r lab) = true →
      (extendWithLLM true valid rows labels).get? j =
        some (mergeBase r lab)) ∧
    (extendWithLLM true valid rows labels).length =
      min rows.length labels.length := by
  refine ⟨?_, ?_, ?_⟩
  · intro i r lab hr hl hfail
    rw [extend_get true valid rows labels i r lab hr hl,
      mergeOne_validated, if_neg (by simp [hfail])]
  · intro j r lab hr hl hok
    rw [extend_get true valid rows labels j r lab hr hl,
      mergeOne_validated, if_pos hok]
  · rw [extend_eq_zip]
    simp

/-- Witness for C6: a validator rejecting the program value `"BAD"` rolls
back exactly the first row's merge while the second row keeps its merge. -/
theorem c6_rollback_atomicity_witness :
    (extendWithLLM true (fun e => e.program ≠ some "BAD")
        [mkNormRow "A" "U1" "u1", mkNormRow "B" "U2" "u2"]
        [{ program_canon := Val.vstr "BAD", university_canon := Val.vnone },
         { program_canon := Val.vstr "Good", university_canon := Val.vnone }]).get? 0 =
      some { toNormRow := mkNormRow "A" "U1" "u1", program_canon := Val.vnone,
             university_canon := Val.vnone } ∧
    (extendWithLLM true (fun e => e.program ≠ some "BAD")
        [mkNormRow "A" "U1" "u1", mkNormRow "B" "U2" "u2"]
        [{ program_canon := Val.vstr "BAD", university_canon := Val.vnone },
         { program_canon := Val.vstr "Good", university_canon := Val.vnone }]).get? 1 =
      some (mergeBase (mkNormRow "B" "U2" "u2")
        { program_canon := Val.vstr "Good", university_canon := Val.vnone }) := by
  have h := c6_rollback_atomicity (fun e => e.program ≠ some "BAD")
    [mkNormRow "A" "U1" "u1", mkNormRow "B" "U2" "u2"]
    [{ program_canon := Val.vstr "BAD", university_canon := Val.vnone },
     { program_canon := Val.vstr "Good", university_canon := Val.vnone }]
  refine ⟨?_, ?_⟩
  · exact h.1 0 (mkNormRow "A" "U1" "u1")
      { program_canon := Val.vstr "BAD", university_canon := Val.vnone }
      rfl rfl (by decide)
  · exact h.2.1 1 (mkNormRow "B" "U2" "u2")
      { program_canon := Val.vstr "Good", university_canon := Val.vnone }
      rfl rfl (by decide)

/-! ## Claim C7 -/

/-- C7 — Busy rejection: with the pull lock held, module_4's `/pull-data`
handler immediately answers a JSON client with the busy 409 and does not
start a pipeline run; module_5's handler instead enters `with _pull_lock:`
and blocks (queues) on the held lock rather than producing the immediate
busy response, whatever the service call would do. -/
theorem c7_busy_rejection_divergence :
    (∀ svc, m4PullData true true svc = (.busyJson, false)) ∧
    (∀ svc, m5PullData true true svc = (.blocked, false)) ∧
    PullResp.blocked ≠ PullResp.busyJson := by
  refine ⟨?_, ?_, by decide⟩
  · intro svc; cases svc <;> rfl
  · intro svc; cases svc <;> rfl


/-! ## Decimal rendering round-trip lemmas (towards claim C9) -/

theorem digitsVal_from (b : List Char) :
    ∀ init : Nat, b.foldl (fun a c => 10 * a + digitVal c) init =
      init * 10 ^ b.length + digitsVal b := by
  induction b with
  | nil => intro init; simp [digitsVal]
  | cons c rest ih =>
    intro init
    simp only [List.foldl_cons, List.length_cons, digitsVal]
    rw [ih (10 * init + digitVal c), ih (10 * 0 + digitVal c)]
    ring

theorem digitsVal_append (a b : List Char) :
    digitsVal (a ++ b) = digitsVal a * 10 ^ b.length + digitsVal b := by
  unfold digitsVal
  rw [List.foldl_append]
  exact digitsVal_from b _

theorem natToDigitsGo_spec : ∀ (fuel n : Nat) (acc : List Char), n < fuel →
    natToDigitsGo fuel n acc = natToDigits n ++ acc := by
  intro fuel
  induction fuel using Nat.strong_induction_on with
  | _ fuel ih =>
    intro n acc h
    match fuel, h with
    | f + 1, h =>
      by_cases hn : n < 10
      · simp [natToDigitsGo, natToDigits, hn]
      · have hd : n / 10 < n := Nat.div_lt_self (by omega) (by omega)
        have hstep : ∀ a, natToDigitsGo (f + 1) n a =
            natToDigitsGo f (n / 10) (digitChar (n % 10) :: a) := by
          intro a
          simp [natToDigitsGo, hn]
        rw [hstep acc, ih f (by omega) (n / 10) _ (by omega)]
        have hr : natToDigits n = natToDigits (n / 10) ++ [digitChar (n % 10)] := by
          rw [natToDigits]
          have hu : natToDigitsGo (n + 1) n [] =
              natToDigitsGo n (n / 10) [digitChar (n % 10)] := by
            cases n with
            | zero => omega
            | succ k => simp [natToDigitsGo, hn]
          rw [hu, ih n (by omega) (n / 10) _ (by omega)]
        rw [hr]
        simp

theorem digitVal_digitChar (n : Nat) (h : n < 10) : digitVal (digitChar n) = n := by
  interval_cases n <;> decide

theorem isDigitCh_digitChar (n : Nat) (h : n < 10) : isDigitCh (digitChar n) = true := by
  interval_cases n <;> decide

theorem natToDigits_unfold (n : Nat) (h : ¬n < 10) :
    natToDigits n = natToDigits (n / 10) ++ [digitChar (n % 10)] := by
  rw [natToDigits]
  cases n with
  | zero => omega
  | succ k =>
    simp only [natToDigitsGo, h, if_false]
    exact natToDigitsGo_spec (k + 1) ((k + 1) / 10) [digitChar ((k + 1) % 10)]
      (by
        have := Nat.div_lt_self (show 0 < k + 1 by omega) (show 1 < 10 by omega)
        omega)

theorem natToDigits_spec : ∀ n : Nat,
    digitsVal (natToDigits n) = n ∧ (natToDigits n).all isDigitCh = true ∧
      natToDigits n ≠ [] := by
  intro n
  induction n using Nat.strong_induction_on with
  | _ n ih =>
    by_cases hn : n < 10
    · have he : natToDigits n = [digitChar n] := by
        simp [natToDigits, natToDigitsGo, hn]
      rw [he]
      refine ⟨?_, ?_, by simp⟩
      · simp [digitsVal, digitVal_digitChar n hn]
      · simp [List.all_cons, isDigitCh_digitChar n hn]
    · have h10 : n / 10 < n := Nat.div_lt_self (by omega) (by omega)
      obtain ⟨ihv, ihd, -⟩ := ih (n / 10) h10
      rw [natToDigits_unfold n hn]
      refine ⟨?_, ?_, by simp⟩
      · rw [digitsVal_append, ihv]
        have hone : digitsVal [digitChar (n % 10)] = n % 10 := by
          simp [digitsVal, digitVal_digitChar (n % 10) (by omega)]
        rw [hone]
        simp only [List.length_singleton, pow_one]
        omega
      · rw [List.all_append, ihd]
        simp [isDigitCh_digitChar (n % 10) (by omega)]

theorem natToDigits_length : ∀ (k n : Nat), n < 10 ^ k → 1 ≤ k →
    (natToDigits n).length ≤ k := by
  intro k
  induction k with
  | zero => intro n h h1; omega
  | succ j ih =>
    intro n h _
    by_cases hn : n < 10
    · have he : natToDigits n = [digitChar n] := by
        simp [natToDigits, natToDigitsGo, hn]
      rw [he]
      simp only [List.length_singleton]
      omega
    · have hj : 1 ≤ j := by
        by_contra hc
        have hj0 : j = 0 := by omega
        subst hj0
        simp at h
        omega
      have hdiv : n / 10 < 10 ^ j := by
        rw [Nat.div_lt_iff_lt_mul (by omega : (0:Nat) < 10)]
        calc n < 10 ^ (j + 1) := h
        _ = 10 ^ j * 10 := by ring
      rw [natToDigits_unfold n hn]
      have := ih (n / 10) hdiv hj
      simp only [List.length_append, List.length_singleton]
      omega

theorem padZ_length (k : Nat) (l : List Char) (h : l.length ≤ k) :
    (padZ k l).length = k := by
  simp [padZ]
  omega

theorem digitsVal_replicate_zero (j : Nat) :
    digitsVal (List.replicate j '0') = 0 := by
  induction j with
  | zero => rfl
  | succ i ih =>
    rw [List.replicate_succ]
    unfold digitsVal at ih ⊢
    simp only [List.foldl_cons]
    have : (10 * 0 + digitVal '0') = 0 := by decide
    rw [this]
    exact ih

theorem padZ_val (k : Nat) (l : List Char) :
    digitsVal (padZ k l) = digitsVal l := by
  unfold padZ
  rw [digitsVal_append, digitsVal_replicate_zero]
  simp

theorem padZ_allDigits (k : Nat) (l : List Char) (h : l.all isDigitCh = true) :
    (padZ k l).all isDigitCh = true := by
  unfold padZ
  rw [List.all_append, h]
  simp only [Bool.and_true]
  rw [List.all_eq_true]
  intro c hc
  rw [List.eq_of_mem_replicate hc]
  decide

/-- The zero-padded digit rendering of a bounded number: exactly `k` digits
with value `n`. -/
theorem padDigits_spec (k n : Nat) (hk : 1 ≤ k) (hn : n < 10 ^ k) :
    (padZ k (natToDigits n)).length = k ∧
    allDigits (padZ k (natToDigits n)) = true ∧
    digitsVal (padZ k (natToDigits n)) = n := by
  obtain ⟨hv, hd, hne⟩ := natToDigits_spec n
  have hlen := natToDigits_length k n hn hk
  refine ⟨padZ_length k _ hlen, ?_, by rw [padZ_val, hv]⟩
  unfold allDigits
  rw [padZ_allDigits k _ hd]
  simp only [Bool.and_true]
  have hlk : (padZ k (natToDigits n)).length = k := padZ_length k _ hlen
  cases hP : padZ k (natToDigits n) with
  | nil => rw [hP] at hlk; simp at hlk; omega
  | cons a b => simp

theorem splitOnChar_no_sep (sep : Char) :
    ∀ l : List Char, (∀ c ∈ l, c ≠ sep) → splitOnChar sep l = [l] := by
  intro l
  induction l with
  | nil => intro _; rfl
  | cons x rest ih =>
    intro h
    have hx : x ≠ sep := h x (by simp)
    rw [splitOnChar, if_neg hx, ih (fun c hc => h c (by simp [hc]))]

theorem splitOnChar_append (sep : Char) :
    ∀ (a rest : List Char), (∀ c ∈ a, c ≠ sep) →
      splitOnChar sep (a ++ sep :: rest) = a :: splitOnChar sep rest := by
  intro a
  induction a with
  | nil =>
    intro rest _
    simp [splitOnChar]
  | cons x xs ih =>
    intro rest h
    have hx : x ≠ sep := h x (by simp)
    rw [List.cons_append, splitOnChar, if_neg hx,
      ih rest (fun c hc => h c (by simp [hc]))]

theorem isDigitCh_ne (c : Char) (h : isDigitCh c = true) :
    c ≠ '-' ∧ c ≠ ' ' := by
  constructor
  · intro hc; subst hc; exact absurd h (by decide)
  · intro hc; subst hc; exact absurd h (by decide)

theorem allDigits_ne_sep (l : List Char) (h : l.all isDigitCh = true) :
    ∀ c ∈ l, c ≠ '-' := by
  intro c hc
  rw [List.all_eq_true] at h
  exact (isDigitCh_ne c (h c hc)).1

theorem yearTok_pad (y : Nat) (h1 : 1 ≤ y) (h2 : y ≤ 9999) :
    yearTok (padZ 4 (natToDigits y)) = some y := by
  obtain ⟨hl, hd, hv⟩ := padDigits_spec 4 y (by omega) (by omega)
  unfold yearTok
  rw [hl, hd]
  simp [hv]

theorem monthTok_pad (m : Nat) (h1 : 1 ≤ m) (h2 : m ≤ 12) :
    monthTok (padZ 2 (natToDigits m)) = some m := by
  obtain ⟨hl, hd, hv⟩ := padDigits_spec 2 m (by omega) (by omega)
  unfold monthTok
  rw [hd]
  dsimp only
  rw [hl, hv]
  simp [h1, h2]

theorem dayTok_pad (d : Nat) (h1 : 1 ≤ d) (h2 : d ≤ 31) :
    dayTok (padZ 2 (natToDigits d)) = some d := by
  obtain ⟨hl, hd, hv⟩ := padDigits_spec 2 d (by omega) (by omega)
  unfold dayTok
  rw [hd]
  dsimp only
  rw [hl, hv]
  simp [h1, h2]

theorem fmtIso_toList (y m d : Nat) :
    (fmtIso y m d).toList =
      padZ 4 (natToDigits y) ++ '-' :: (padZ 2 (natToDigits m) ++ '-' :: padZ 2 (natToDigits d)) := by
  rfl

theorem validYmd_bounds (y m d : Nat) (h : validYmd y m d = true) :
    1 ≤ y ∧ y ≤ 9999 ∧ 1 ≤ m ∧ m ≤ 12 ∧ 1 ≤ d ∧ d ≤ 31 := by
  unfold validYmd at h
  simp only [Bool.and_eq_true, decide_eq_true_eq] at h
  have hdm : daysInMonth y m ≤ 31 := by
    unfold daysInMonth
    split_ifs <;> omega
  omega

theorem parseIsoYmd_fmtIso (y m d : Nat) (hv : validYmd y m d = true) :
    parseIsoYmd (fmtIso y m d) = some (y, m, d) := by
  obtain ⟨hy1, hy2, hm1, hm2, hd1, hd2⟩ := validYmd_bounds y m d hv
  have hYd := (padDigits_spec 4 y (by omega) (by omega)).2.1
  have hMd := (padDigits_spec 2 m (by omega) (by omega)).2.1
  have hDd := (padDigits_spec 2 d (by omega) (by omega)).2.1
  unfold parseIsoYmd
  rw [fmtIso_toList]
  have hYne : ∀ c ∈ padZ 4 (natToDigits y), c ≠ '-' := by
    apply allDigits_ne_sep
    unfold allDigits at hYd
    simp only [Bool.and_eq_true] at hYd
    exact hYd.2
  have hMne : ∀ c ∈ padZ 2 (natToDigits m), c ≠ '-' := by
    apply allDigits_ne_sep
    unfold allDigits at hMd
    simp only [Bool.and_eq_true] at hMd
    exact hMd.2
  have hDne : ∀ c ∈ padZ 2 (natToDigits d), c ≠ '-' := by
    apply allDigits_ne_sep
    unfold allDigits at hDd
    simp only [Bool.and_eq_true] at hDd
    exact hDd.2
  rw [splitOnChar_append '-' _ _ hYne, splitOnChar_append '-' _ _ hMne,
    splitOnChar_no_sep '-' _ hDne]
  dsimp only
  rw [yearTok_pad y hy1 hy2, monthTok_pad m hm1 hm2, dayTok_pad d hd1 hd2]
  simp [hv]

theorem tryFullFormats_fmtIso (y m d : Nat) (hv : validYmd y m d = true) :
    tryFullFormats (fmtIso y m d) = some (y, m, d) := by
  unfold tryFullFormats
  rw [parseIsoYmd_fmtIso y m d hv]
  rfl

theorem parseIsoYmd_valid (s : String) (y m d : Nat)
    (h : parseIsoYmd s = some (y, m, d)) : validYmd y m d = true := by
  unfold parseIsoYmd at h
  split at h
  · split at h
    · split_ifs at h with hval
      all_goals cases h
      exact hval
    · cases h
  · cases h

theorem parseMonthNameYmd_valid (tbl : List (String × Nat)) (s : String)
    (y m d : Nat) (h : parseMonthNameYmd tbl s = some (y, m, d)) :
    validYmd y m d = true := by
  unfold parseMonthNameYmd at h
  split at h
  · split at h
    · split at h
      · split_ifs at h with hval
        all_goals cases h
        exact hval
      · cases h
    · cases h
  · cases h

theorem tryFullFormats_valid (s : String) (y m d : Nat)
    (h : tryFullFormats s = some (y, m, d)) : validYmd y m d = true := by
  unfold tryFullFormats at h
  cases h1 : parseIsoYmd s with
  | some v =>
    rw [h1] at h
    have h2 : some v = some (y, m, d) := h
    cases h2
    exact parseIsoYmd_valid s y m d h1
  | none =>
    rw [h1] at h
    have h2 : (parseMonthNameYmd monthsFull s).orElse
        (fun _ => parseMonthNameYmd monthsAbbr s) = some (y, m, d) := h
    cases h3 : parseMonthNameYmd monthsFull s with
    | some v =>
      rw [h3] at h2
      have h4 : some v = some (y, m, d) := h2
      cases h4
      exact parseMonthNameYmd_valid monthsFull s y m d h3
    | none =>
      rw [h3] at h2
      have h4 : parseMonthNameYmd monthsAbbr s = some (y, m, d) := h2
      exact parseMonthNameYmd_valid monthsAbbr s y m d h4

/-! ## ISO output strings are inert under renormalization -/

theorem padZ_digits_mem (k n : Nat) :
    ∀ c ∈ padZ k (natToDigits n), isDigitCh c = true := by
  have h := padZ_allDigits k (natToDigits n) (natToDigits_spec n).2.1
  rw [List.all_eq_true] at h
  exact h

theorem fmtIso_plain (y m d : Nat) :
    ∀ c ∈ (fmtIso y m d).toList, isDigitCh c = true ∨ c = '-' := by
  rw [fmtIso_toList]
  intro c hc
  simp only [List.mem_append, List.mem_cons] at hc
  rcases hc with h | h | h
  · exact Or.inl (padZ_digits_mem 4 y c h)
  · exact Or.inr h
  · rcases h with h | h
    · exact Or.inl (padZ_digits_mem 2 m c h)
    · rcases h with h | h
      · exact Or.inr h
      · exact Or.inl (padZ_digits_mem 2 d c h)

theorem plain_not_ws (c : Char) (h : isDigitCh c = true ∨ c = '-') :
    pyWs c = false := by
  rcases h with h | h
  · by_contra hb
    rw [Bool.not_eq_false] at hb
    simp only [pyWs, Bool.or_eq_true, decide_eq_true_eq] at hb
    rcases hb with ((((rfl | rfl) | rfl) | rfl) | rfl) | rfl <;>
      exact absurd h (by decide)
  · subst h; decide

theorem dropWhile_no_ws (l : List Char) (h : ∀ c ∈ l, pyWs c = false) :
    l.dropWhile pyWs = l := by
  cases l with
  | nil => rfl
  | cons c rest =>
    rw [List.dropWhile_cons, if_neg]
    rw [h c (by simp)]
    simp

theorem stripList_plain (l : List Char)
    (h : ∀ c ∈ l, isDigitCh c = true ∨ c = '-') : stripList l = l := by
  have hws : ∀ c ∈ l, pyWs c = false := fun c hc => plain_not_ws c (h c hc)
  unfold stripList
  rw [dropWhile_no_ws l hws,
    dropWhile_no_ws l.reverse (fun c hc => hws c (List.mem_reverse.mp hc)),
    List.reverse_reverse]

theorem pyStrip_fmtIso (y m d : Nat) : pyStrip (fmtIso y m d) = fmtIso y m d := by
  unfold pyStrip
  rw [stripList_plain _ (fmtIso_plain y m d)]
  rfl

theorem uiMatchAt_plain (c : Char) (rest : List Char)
    (h : isDigitCh c = true ∨ c = '-') : uiMatchAt (c :: rest) = false := by
  have hT : decide ('T' = c) = false := by
    apply decide_eq_false
    rintro rfl
    rcases h with h | h <;> exact absurd h (by decide)
  have hO : decide ('O' = c) = false := by
    apply decide_eq_false
    rintro rfl
    rcases h with h | h <;> exact absurd h (by decide)
  have hS : decide ('S' = c) = false := by
    apply decide_eq_false
    rintro rfl
    rcases h with h | h <;> exact absurd h (by decide)
  have hR : decide ('R' = c) = false := by
    apply decide_eq_false
    rintro rfl
    rcases h with h | h <;> exact absurd h (by decide)
  simp only [uiMatchAt, uiTokens, List.any_cons, List.any_nil,
    startsWithSeq, hT, hO, hS, hR, Bool.false_and, Bool.and_false,
    Bool.or_false, Bool.false_or]

theorem uiSplit_plain (l : List Char)
    (h : ∀ c ∈ l, isDigitCh c = true ∨ c = '-') : uiSplit l = l := by
  induction l with
  | nil => rfl
  | cons c rest ih =>
    rw [uiSplit, if_neg]
    · rw [ih (fun x hx => h x (by simp [hx]))]
    · rw [uiMatchAt_plain c rest (h c (by simp))]
      simp

/-! ## Date-normalization stability -/

theorem dateIso_stable (v : Val) (t : String) (h : dateIso v = some t)
    (hfix : normStr t = some t) : dateIso (Val.vstr t) = some t := by
  unfold dateIso at h
  cases hn : pyNormStr v with
  | none => rw [hn] at h; cases h
  | some s =>
    rw [hn] at h
    dsimp only at h
    unfold dateIso
    simp only [pyNormStr, hfix]
    cases hp : tryFullFormats s with
    | some ymd =>
      rw [hp] at h
      obtain ⟨y, m, d⟩ := ymd
      cases h
      have hv := tryFullFormats_valid s y m d hp
      rw [tryFullFormats_fmtIso y m d hv]
    | none =>
      rw [hp] at h
      cases h
      rw [hp]

theorem shortRecombine_valid (ds ms : List Char) (yr : Int) (y m d : Nat)
    (h : shortRecombine ds ms yr = some (y, m, d)) : validYmd y m d = true := by
  unfold shortRecombine at h
  split at h
  · cases h
  · split at h
    · cases h
    · dsimp only at h
      split_ifs at h with h1 h2
      all_goals cases h
      assumption

theorem badgeDate_out (v : Val) (dy : Option Int) (t : String)
    (h : badgeDate v dy = some t) :
    ∃ y m d, validYmd y m d = true ∧ t = fmtIso y m d := by
  unfold badgeDate at h
  cases hn : pyNormStr v with
  | none => rw [hn] at h; cases h
  | some s0 =>
    rw [hn] at h
    dsimp only at h
    cases hp : tryFullFormats (pyStrip (String.mk (uiSplit s0.toList))) with
    | some ymd =>
      rw [hp] at h
      obtain ⟨y, m, d⟩ := ymd
      cases h
      exact ⟨y, m, d, tryFullFormats_valid _ y m d hp, rfl⟩
    | none =>
      rw [hp] at h
      dsimp only at h
      split at h
      · cases h
      · rename_i ds ms heq1
        split at h
        · cases h
        · rename_i yr
          split_ifs at h with h0
          cases hsr : shortRecombine ds ms yr with
          | none =>
            rw [hsr] at h
            simp at h
          | some ymd =>
            obtain ⟨y, m, d⟩ := ymd
            rw [hsr] at h
            dsimp only at h
            refine ⟨y, m, d, shortRecombine_valid ds ms yr y m d hsr, ?_⟩
            simp only [Option.some.injEq] at h
            exact h.symm

theorem badgeDate_stable (v : Val) (dy dy' : Option Int) (t : String)
    (h : badgeDate v dy = some t) (hfix : normStr t = some t) :
    badgeDate (Val.vstr t) dy' = some t := by
  obtain ⟨y, m, d, hv, rfl⟩ := badgeDate_out v dy t h
  unfold badgeDate
  simp only [pyNormStr, hfix]
  have hsplit : uiSplit (fmtIso y m d).toList = (fmtIso y m d).toList :=
    uiSplit_plain _ (fmtIso_plain y m d)
  rw [hsplit]
  have hmk : String.mk (fmtIso y m d).toList = fmtIso y m d := rfl
  rw [hmk, pyStrip_fmtIso, tryFullFormats_fmtIso y m d hv]

/-! ## Canonical tokens are fixed points of their own normalizers -/

theorem statusTok_renorm : ∀ s ∈ STATUS_ALLOWED, normStatus (Val.vstr s) = some s := by
  intro s hs
  simp only [STATUS_ALLOWED, List.mem_cons, List.mem_singleton, List.not_mem_nil,
    or_false] at hs
  rcases hs with rfl | rfl | rfl | rfl | rfl <;> rfl

theorem degreeTok_renorm : ∀ s ∈ DEGREE_ALLOWED, normDegree (Val.vstr s) = some s := by
  intro s hs
  simp only [DEGREE_ALLOWED, List.mem_cons, List.mem_singleton, List.not_mem_nil,
    or_false] at hs
  rcases hs with rfl | rfl | rfl | rfl | rfl | rfl | rfl | rfl <;> rfl

theorem termTok_renorm : ∀ s ∈ TERM_ALLOWED, normTerm (Val.vstr s) = some s := by
  intro s hs
  simp only [TERM_ALLOWED, List.mem_cons, List.mem_singleton, List.not_mem_nil,
    or_false] at hs
  rcases hs with rfl | rfl | rfl <;> rfl

theorem citTok_renorm : ∀ s ∈ CIT_ALLOWED, normCitizenship (Val.vstr s) = some s := by
  intro s hs
  simp only [CIT_ALLOWED, List.mem_cons, List.mem_singleton, List.not_mem_nil,
    or_false] at hs
  rcases hs with rfl | rfl <;> rfl

theorem normYear_renorm (c : Cleaner) (y : Int)
    (hb : c.year_min ≤ y ∧ y ≤ c.year_max) : normYear c (Val.vint y) = some y := by
  have h1 : ¬(y < c.year_min) := by omega
  have h2 : ¬(y > c.year_max) := by omega
  simp [normYear, pyToInt, h1, h2]

theorem normGpa_renorm (c : Cleaner) (q : ℚ)
    (hb : 0 ≤ q ∧ q ≤ c.gpa_max) :
    normGpa c (Val.vrat (PyFloat.finite q)) = some (PyFloat.finite q) := by
  have h1 : ¬(q < 0) := not_lt.mpr hb.1
  have h2 : ¬(c.gpa_max < q) := not_lt.mpr hb.2
  simp [normGpa, pyToFloat, PyFloat.lt, h1, h2]

theorem normGreTotal_renorm (g : Int) (hb : 260 ≤ g ∧ g ≤ 340) :
    normGreTotal (Val.vint g) = some g := by
  simp [normGreTotal, pyToInt, hb.1, hb.2]

theorem normGreVerbal_renorm (g : Int) (hb : 130 ≤ g ∧ g ≤ 170) :
    normGreVerbal (Val.vint g) = some g := by
  simp [normGreVerbal, pyToInt, hb.1, hb.2]

theorem normGreAw_renorm (q : ℚ) (hb : 0 ≤ q ∧ q ≤ 6) :
    normGreAw (Val.vrat (PyFloat.finite q)) = some (PyFloat.finite q) := by
  have h1 : ¬(q < 0) := not_lt.mpr hb.1
  have h2 : ¬(6 < q) := not_lt.mpr hb.2
  simp [normGreAw, pyToFloat, PyFloat.le, PyFloat.lt, h1, h2]

/-! ## Row-level renormalization -/

theorem normFixedB_some (o : Option String) (s : String)
    (h : normFixedB o = true) (ho : o = some s) : normStr s = some s := by
  subst ho
  simpa [normFixedB] using h

theorem pyNormStr_optStr (o : Option String) (h : normFixedB o = true) :
    pyNormStr (optStrVal o) = o := by
  cases o with
  | none => rfl
  | some s =>
    show normStr s = some s
    exact normFixedB_some (some s) s h rfl

theorem normRowExt (a b : NormRow)
    (h1 : a.program = b.program) (h2 : a.university = b.university)
    (h3 : a.date_added = b.date_added) (h4 : a.url = b.url)
    (h5 : a.status = b.status) (h6 : a.comments = b.comments)
    (h7 : a.accept_date = b.accept_date) (h8 : a.reject_date = b.reject_date)
    (h9 : a.start_term = b.start_term) (h10 : a.start_year = b.start_year)
    (h11 : a.citizenship = b.citizenship) (h12 : a.gre_total = b.gre_total)
    (h13 : a.gre_verbal = b.gre_verbal) (h14 : a.gre_aw = b.gre_aw)
    (h15 : a.degree = b.degree) (h16 : a.gpa = b.gpa) : a = b := by
  cases a
  cases b
  simp_all

/-- Renormalizing a cleaned row whose free-text fields are fixed points of
string normalization gives the row back unchanged. -/
theorem renorm_of_normalized (c : Cleaner) (raw : RawRow)
    (hfix : rowTextFixed (normalizeRow c raw) = true)
    (hnan : (normalizeRow c raw).gpa ≠ some PyFloat.nan) :
    normalizeRow c (NormRow.toRaw (normalizeRow c raw)) = normalizeRow c raw := by
  unfold rowTextFixed at hfix
  simp only [Bool.and_eq_true] at hfix
  obtain ⟨⟨⟨⟨⟨⟨hP, hU⟩, hUrl⟩, hC⟩, hD⟩, hA⟩, hR⟩ := hfix
  apply normRowExt
  · exact pyNormStr_optStr _ hP
  · exact pyNormStr_optStr _ hU
  · show dateIso (optStrVal ((normalizeRow c raw).date_added)) =
      (normalizeRow c raw).date_added
    cases hd : (normalizeRow c raw).date_added with
    | none => rfl
    | some t => exact dateIso_stable raw.date_added t hd (normFixedB_some _ t hD hd)
  · exact pyNormStr_optStr _ hUrl
  · show normStatus (optStrVal ((normalizeRow c raw).status)) =
      (normalizeRow c raw).status
    cases hs : (normalizeRow c raw).status with
    | none => rfl
    | some s => exact statusTok_renorm s (normStatus_mem raw.status s hs)
  · exact pyNormStr_optStr _ hC
  · show badgeDate (optStrVal ((normalizeRow c raw).accept_date))
        (defaultYearOf (dateIso (optStrVal ((normalizeRow c raw).date_added)))) =
      (normalizeRow c raw).accept_date
    cases ha : (normalizeRow c raw).accept_date with
    | none => rfl
    | some t =>
      exact badgeDate_stable raw.accept_date _ _ t ha (normFixedB_some _ t hA ha)
  · show badgeDate (optStrVal ((normalizeRow c raw).reject_date))
        (defaultYearOf (dateIso (optStrVal ((normalizeRow c raw).date_added)))) =
      (normalizeRow c raw).reject_date
    cases hrj : (normalizeRow c raw).reject_date with
    | none => rfl
    | some t =>
      exact badgeDate_stable raw.reject_date _ _ t hrj (normFixedB_some _ t hR hrj)
  · show normTerm (optStrVal ((normalizeRow c raw).start_term)) =
      (normalizeRow c raw).start_term
    cases ht : (normalizeRow c raw).start_term with
    | none => rfl
    | some s => exact termTok_renorm s (normTerm_mem raw.start_term s ht)
  · show normYear c (optIntVal ((normalizeRow c raw).start_year)) =
      (normalizeRow c raw).start_year
    cases hy : (normalizeRow c raw).start_year with
    | none => rfl
    | some y => exact normYear_renorm c y (normYear_bounds c raw.start_year y hy)
  · show normCitizenship (optStrVal ((normalizeRow c raw).citizenship)) =
      (normalizeRow c raw).citizenship
    cases hz : (normalizeRow c raw).citizenship with
    | none => rfl
    | some s => exact citTok_renorm s (normCitizenship_mem raw.citizenship s hz)
  · show normGreTotal (optIntVal ((normalizeRow c raw).gre_total)) =
      (normalizeRow c raw).gre_total
    cases hg : (normalizeRow c raw).gre_total with
    | none => rfl
    | some g => exact normGreTotal_renorm g (normGreTotal_bounds raw.gre_total g hg)
  · show normGreVerbal (optIntVal ((normalizeRow c raw).gre_verbal)) =
      (normalizeRow c raw).gre_verbal
    cases hg : (normalizeRow c raw).gre_verbal with
    | none => rfl
    | some g => exact normGreVerbal_renorm g (normGreVerbal_bounds raw.gre_verbal g hg)
  · show normGreAw (optFloatVal ((normalizeRow c raw).gre_aw)) =
      (normalizeRow c raw).gre_aw
    cases hg : (normalizeRow c raw).gre_aw with
    | none => rfl
    | some g =>
      obtain ⟨q, rfl, hb1, hb2⟩ := normGreAw_finite raw.gre_aw g hg
      exact normGreAw_renorm q ⟨hb1, hb2⟩
  · show normDegree (optStrVal ((normalizeRow c raw).degree)) =
      (normalizeRow c raw).degree
    cases hdg : (normalizeRow c raw).degree with
    | none => rfl
    | some s => exact degreeTok_renorm s (normDegree_mem raw.degree s hdg)
  · show normGpa c (optFloatVal ((normalizeRow c raw).gpa)) =
      (normalizeRow c raw).gpa
    cases hg : (normalizeRow c raw).gpa with
    | none => rfl
    | some g =>
      rcases normGpa_cases c raw.gpa g hg with hne | ⟨q, rfl, hb1, hb2⟩
      · subst hne
        exact absurd hg hnan
      · exact normGpa_renorm c q ⟨hb1, hb2⟩

/-! ## List-level idempotence pieces -/

theorem map_id_of_mem {α : Type} (f : α → α) :
    ∀ l : List α, (∀ x ∈ l, f x = x) → l.map f = l := by
  intro l
  induction l with
  | nil => intro _; rfl
  | cons x rest ih =>
    intro h
    rw [List.map_cons, h x (by simp), ih (fun y hy => h y (by simp [hy]))]

theorem filter_true_of_mem {α : Type} (p : α → Bool) :
    ∀ l : List α, (∀ x ∈ l, p x = true) → l.filter p = l := by
  intro l
  induction l with
  | nil => intro _; rfl
  | cons x rest ih =>
    intro h
    rw [List.filter_cons, if_pos (h x (by simp)),
      ih (fun y hy => h y (by simp [hy]))]

theorem dedupeGo_idem : ∀ (l : List NormRow) (seen : List String),
    dedupeGo seen (dedupeGo seen l) = dedupeGo seen l := by
  intro l
  induction l with
  | nil => intro seen; rfl
  | cons r rest ih =>
    intro seen
    cases hu : r.url with
    | none =>
      rw [dedupeGo]
      simp only [hu]
      rw [dedupeGo]
      simp only [hu]
      rw [ih seen]
    | some u =>
      by_cases he : u.isEmpty
      · rw [dedupeGo]
        simp only [hu, he, if_true]
        rw [dedupeGo]
        simp only [hu, he, if_true]
        rw [ih seen]
      · by_cases hs : seen.contains (pyStrip u)
        · rw [dedupeGo]
          simp only [hu, he, Bool.false_eq_true, if_false, hs, if_true]
          exact ih seen
        · rw [dedupeGo]
          simp only [hu, he, Bool.false_eq_true, if_false, hs]
          rw [dedupeGo]
          simp only [hu, he, Bool.false_eq_true, if_false, hs]
          rw [ih (pyStrip u :: seen)]

theorem dedupeByUrl_idem (c : Cleaner) (l : List NormRow) :
    dedupeByUrl c (dedupeByUrl c l) = dedupeByUrl c l := by
  unfold dedupeByUrl
  by_cases hc : c.dedupe_by_url
  · simp only [hc, if_true]
    exact dedupeGo_idem l []
  · simp only [hc, Bool.false_eq_true, if_false]

/-! ## Claim C9 -/

/-- C9 counterexample: cleaning is not idempotent — an HTML-escaped program
name (`"&lt;b&gt;"`) is decoded to `"<b>"` by the first pass; the second
pass strips `"<b>"` as a markup tag, empties the required field, and drops
the row entirely. -/
theorem c9_counterexample :
    cleanRows defaultCleaner
        ((cleanRows defaultCleaner [entityRaw]).map NormRow.toRaw) ≠
      cleanRows defaultCleaner [entityRaw] := by
  decide

/-- C9 (amended) — Conditional cleaning idempotence: re-cleaning the
cleaned output returns it unchanged whenever every surviving row's
free-text fields are fixed points of string normalization (no re-readable
markup or HTML entities) and no surviving row carries a NaN gpa (a
re-parsed NaN is unequal to the stored one under dict equality); without
those conditions a second pass can differ, because tag-stripping and
entity-unescaping are not idempotent and NaN never equals itself. -/
theorem c9_clean_idempotence (c : Cleaner) (rows : List RawRow)
    (hfix : ∀ r ∈ cleanRows c rows, rowTextFixed r = true)
    (hnan : ∀ r ∈ cleanRows c rows, r.gpa ≠ some PyFloat.nan) :
    cleanRows c ((cleanRows c rows).map NormRow.toRaw) = cleanRows c rows := by
  have hmap : ((cleanRows c rows).map NormRow.toRaw).map (normalizeRow c) =
      cleanRows c rows := by
    rw [List.map_map]
    apply map_id_of_mem
    intro r hr
    obtain ⟨⟨raw, -, heq⟩, -⟩ := mem_cleanRows c rows r hr
    subst heq
    exact renorm_of_normalized c raw (hfix _ hr) (hnan _ hr)
  have hfil : (cleanRows c rows).filter requiredOk = cleanRows c rows := by
    apply filter_true_of_mem
    intro r hr
    exact (mem_cleanRows c rows r hr).2
  show dedupeByUrl c
      ((((cleanRows c rows).map NormRow.toRaw).map (normalizeRow c)).filter requiredOk) =
    cleanRows c rows
  rw [hmap, hfil]
  show dedupeByUrl c (dedupeByUrl c ((rows.map (normalizeRow c)).filter requiredOk)) =
    cleanRows c rows
  rw [dedupeByUrl_idem]
  rfl

/-- Witness for C9 (amended) at a concrete entity-free row: the cleaned
output of the sample raw row survives a second cleaning unchanged. -/
theorem c9_clean_idempotence_witness :
    cleanRows defaultCleaner
        ((cleanRows defaultCleaner [sampleRaw]).map NormRow.toRaw) =
      cleanRows defaultCleaner [sampleRaw] :=
  c9_clean_idempotence defaultCleaner [sampleRaw] (by decide)
    (by
      intro r hr
      rw [show cleanRows defaultCleaner [sampleRaw] =
        [normalizeRow defaultCleaner sampleRaw] from rfl,
        List.mem_singleton] at hr
      subst hr
      rw [show (normalizeRow defaultCleaner sampleRaw).gpa =
        some (PyFloat.finite (mkRat 19 5)) from rfl]
      intro hcon
      injection hcon with h
      exact PyFloat.noConfusion h)

end GradPipeline
